import Mathlib

/-!
Verification of the Tournament Scheduling & Standings Engine of the
`eafc26turneu` repository.

The TypeScript sources are shallowly embedded below:
* the data model (`types.ts`),
* both concatenated `DatabaseService` implementations of `src/services/db.ts`
  (namespaces `DatabaseService` and `DatabaseService2`),
* the pure algorithms of `src/utils/logic.ts`
  (`generateFixturesAlgorithm`, `calculateStandingsLogic`),
* the `runLottery` handler of `src/components/TournamentDetail.tsx`.

JavaScript `localStorage` persistence is modelled by explicit state passing on
`DBState`; a thrown `Error` is modelled by `Except String` carrying the
literal message, so an error result means no state was written (the source
throws before reaching `this.save()`).  `Math.random` identifiers carry no
information used by any claim and are modelled by the constant `""`;
the random shuffle inside `runLottery` is abstracted as an explicitly passed
permuted pool.
-/

namespace Eafc

/-- `TournamentStatus` from `types.ts`. -/
inductive TournamentStatus
  | upcoming
  | active
  | finished
deriving DecidableEq, Repr

/-- `Tournament` from `types.ts`, restricted to the fields the embedded
operations read (`name`, dates and description are never inspected). -/
structure Tournament where
  id : String
  status : TournamentStatus
  participantUserIds : List String
  selectedTeamIds : List String
deriving DecidableEq, Repr

/-- `Match` from `types.ts`.  Scores are JavaScript numbers stored in nullable
fields, modelled as `Option ℚ`. -/
structure Match where
  id : String
  tournamentId : String
  matchday : Nat
  playerAId : String
  playerBId : String
  teamAId : Option String
  teamBId : Option String
  scoreA : Option ℚ
  scoreB : Option ℚ
  isCompleted : Bool
deriving DecidableEq, Repr

/-- `Assignment` from `types.ts` (the `Math.random` id field is dropped:
no embedded operation reads it). -/
structure Assignment where
  tournamentId : String
  userId : String
  teamId : String
deriving DecidableEq, Repr

/-- `ChatMessage` from `types.ts`, restricted to the fields the cascade
deletes inspect; `tournamentId` is optional (global chat has none), and
`timestamp` is the ISO-8601 string the Firestore chat query orders by. -/
structure ChatMessage where
  id : String
  userId : String
  tournamentId : Option String
  timestamp : String
deriving DecidableEq, Repr

/-- `User` from `types.ts`, restricted to the fields standings read. -/
structure User where
  id : String
  username : String
deriving DecidableEq, Repr

/-- `StandingStat` from `types.ts`: one row of the standings table. -/
structure StandingStat where
  id : String
  username : String
  p : Nat
  w : Nat
  d : Nat
  l : Nat
  gf : ℚ
  ga : ℚ
  pts : Nat
deriving DecidableEq, Repr

/-- A JavaScript `number` argument as scrutinised by the score validation of
the first `updateMatch` implementation: either `NaN` or an actual rational
value (`typeof x === 'number'` always holds for these, enforced here by the
type itself). -/
inductive JSNum
  | nan
  | val (q : ℚ)
deriving DecidableEq, Repr

/-- The mutable `this.data` record of `DatabaseService`, restricted to the
collections the claims touch. -/
structure DBState where
  tournaments : List Tournament
  matches' : List Match
  assignments : List Assignment
  chatMessages : List ChatMessage
deriving DecidableEq, Repr

/-- `true` iff an `Except` result is a success. -/
def exceptOk {ε α : Type} : Except ε α → Bool
  | .ok _ => true
  | .error _ => false

/-! ### First `DatabaseService` implementation (src/services/db.ts, lines 7-240) -/

namespace DatabaseService

/-- `updateMatch` (db.ts lines 84-102).  Validation order follows the source:
NaN check, then non-negative-integer check, then lookup by `findIndex`;
the update rewrites only the found index. -/
def updateMatch (st : DBState) (id : String) (scoreA scoreB : JSNum) :
    Except String DBState :=
  match scoreA, scoreB with
  | .nan, _ => .error "Invalid score value (NaN)."
  | .val _, .nan => .error "Invalid score value (NaN)."
  | .val a, .val b =>
    if a < 0 ∨ b < 0 ∨ a.den ≠ 1 ∨ b.den ≠ 1 then
      .error "Scores must be non-negative integers."
    else
      match st.matches'.findIdx? (fun m => m.id == id) with
      | none => .error "Match not found."
      | some i =>
        .ok { st with
              matches' := st.matches'.modify
                (fun m => { m with scoreA := some a, scoreB := some b,
                                   isCompleted := true }) i }

/-- `undoMatchResult` (db.ts lines 104-112): flips only `isCompleted` of the
first match whose id matches, retaining the stored scores. -/
def undoMatchResult (st : DBState) (id : String) : Except String DBState :=
  match st.matches'.findIdx? (fun m => m.id == id) with
  | none => .error "Match not found."
  | some i =>
    .ok { st with
          matches' := st.matches'.modify (fun m => { m with isCompleted := false }) i }

/-- `deleteTournament` (db.ts lines 114-120): cascading filter over all four
collections. -/
def deleteTournament (st : DBState) (id : String) : DBState :=
  { tournaments := st.tournaments.filter (fun t => t.id ≠ id)
    matches' := st.matches'.filter (fun m => m.tournamentId ≠ id)
    assignments := st.assignments.filter (fun a => a.tournamentId ≠ id)
    chatMessages := st.chatMessages.filter (fun c => c.tournamentId ≠ some id) }

/-- `resetTournamentSchedule` (db.ts lines 136-141; the second implementation,
lines 364-369, is line-for-line identical on this state): unconditionally
forces the status back to Upcoming and deletes the tournament's matches and
assignments — the source contains no check of the current status. -/
def resetTournamentSchedule (st : DBState) (id : String) : DBState :=
  { st with
    tournaments := st.tournaments.map
      (fun t => if t.id = id then { t with status := .upcoming } else t)
    matches' := st.matches'.filter (fun m => m.tournamentId ≠ id)
    assignments := st.assignments.filter (fun a => a.tournamentId ≠ id) }

/-- `addAssignments` (db.ts line 152): appends the batch. -/
def addAssignments (st : DBState) (batch : List Assignment) : DBState :=
  { st with assignments := st.assignments ++ batch }

/-- `addMatches` (db.ts line 151): appends the batch. -/
def addMatches (st : DBState) (batch : List Match) : DBState :=
  { st with matches' := st.matches' ++ batch }

/-- `deployFixtures` (db.ts lines 143-149): inserts the match batch and flips
the tournament to Active. -/
def deployFixtures (st : DBState) (tournamentId : String) (batch : List Match) :
    DBState :=
  { st with
    matches' := st.matches' ++ batch
    tournaments := st.tournaments.map
      (fun t => if t.id = tournamentId then { t with status := .active } else t) }

end DatabaseService

/-! ### Second `DatabaseService` implementation (src/services/db.ts, lines 250-404) -/

namespace DatabaseService2

/-- `updateMatch` of the second implementation (db.ts lines 323-331): no score
validation at all — any numbers are written; the update maps over every match
with the given id.  (Its callers parse integer inputs, so the scores are plain
numbers, embedded as `ℚ`.) -/
def updateMatch (st : DBState) (id : String) (scoreA scoreB : ℚ) :
    Except String DBState :=
  match st.matches'.find? (fun m => m.id == id) with
  | none => .error "Match not found."
  | some _ =>
    .ok { st with
          matches' := st.matches'.map
            (fun m => if m.id = id then
              { m with scoreA := some scoreA, scoreB := some scoreB,
                       isCompleted := true } else m) }

/-- `undoMatchResult` of the second implementation (db.ts lines 333-341):
unlike the first implementation it also nulls both scores. -/
def undoMatchResult (st : DBState) (id : String) : Except String DBState :=
  match st.matches'.find? (fun m => m.id == id) with
  | none => .error "Match not found."
  | some _ =>
    .ok { st with
          matches' := st.matches'.map
            (fun m => if m.id = id then
              { m with scoreA := none, scoreB := none, isCompleted := false }
             else m) }

end DatabaseService2

/-- Lexicographic order on character lists by code point, the order in
which Firestore's `orderBy` ranges over string fields (ISO-8601 timestamps
compare lexicographically, i.e. chronologically). Written by structural
recursion so that concrete instances evaluate. -/
def charListLe : List Char → List Char → Bool
  | [], _ => true
  | _ :: _, [] => false
  | c :: cs, d :: ds =>
    if c.toNat < d.toNat then true
    else if d.toNat < c.toNat then false
    else charListLe cs ds

/-- Lexicographic order on strings, applied to the `timestamp` field by the
chat query's `orderBy("timestamp", "asc")`. -/
def strLe (a b : String) : Bool := charListLe a.data b.data

/-! ### The Firestore-backed `DatabaseService` of `src/unnamed/part_003`
(the second `deleteTournament` the cascade claim cites). Collections are
doc stores keyed by `id`; a `where` query is a filter, and deleting the
documents a query returned removes exactly those documents. -/

namespace DatabaseService3

/-- `getChat` (part_003 lines 252-262): the chat query is ordered by
`timestamp` ascending and capped by `limit(100)` BEFORE the tournament
filter runs; a non-empty `tournamentId` keeps the scoped messages, the
empty string (JS falsy) would take the global branch. -/
def getChat (st : DBState) (tournamentId : String) : List ChatMessage :=
  let msgs := (st.chatMessages.mergeSort
    (fun a b => strLe a.timestamp b.timestamp)).take 100
  if tournamentId ≠ "" then
    msgs.filter (fun m => m.tournamentId == some tournamentId)
  else
    msgs.filter (fun m => m.tournamentId == none || m.tournamentId == some "")

/-- `deleteTournament` (part_003 lines 154-170): deletes the tournament
document, then batch-deletes the documents returned by the three cascade
queries — all matches and all assignments of the tournament (full `where`
queries), but only the chat messages `getChat` returned, i.e. those inside
the 100-oldest-by-timestamp window. -/
def deleteTournament (st : DBState) (id : String) : DBState :=
  let chat := getChat st id
  { tournaments := st.tournaments.filter (fun t => t.id ≠ id)
    matches' := st.matches'.filter (fun m => m.tournamentId ≠ id)
    assignments := st.assignments.filter (fun a => a.tournamentId ≠ id)
    chatMessages := st.chatMessages.filter (fun c => c ∉ chat) }

end DatabaseService3

/-! ### `runLottery` (src/components/TournamentDetail.tsx, lines 257-278 and
957-978; both copies implement the same draw) -/

/-- The failure of `runLottery`: the alert
`"Draw pool too small. Need at least N teams."` names the required roster
size; the actual pool size is recorded alongside. -/
inductive LotteryError
  | insufficientPool (required : Nat) (poolSize : Nat)
deriving DecidableEq, Repr

/-- `runLottery`.  `shuffledPool` stands for
`globalTeams.filter(t => selectedTeamIds.includes(t.id)).sort(() => Math.random() - 0.5)`
projected to team ids: the uniform shuffle is abstracted as the permuted pool
handed in.  A non-Upcoming tournament causes a silent early return (state
unchanged); a pool smaller than the roster aborts before any write; otherwise
the draw first discards the tournament's prior schedule and assignments via
`resetTournamentSchedule` and then appends the fresh positional pairing. -/
def runLottery (st : DBState) (t : Tournament) (shuffledPool : List String) :
    Except LotteryError DBState :=
  if t.status ≠ .upcoming then .ok st
  else
    let participantsCount := t.participantUserIds.length
    if shuffledPool.length < participantsCount then
      .error (.insufficientPool participantsCount shuffledPool.length)
    else
      let st1 := DatabaseService.resetTournamentSchedule st t.id
      let newAssignments := t.participantUserIds.enum.map
        (fun p => { tournamentId := t.id, userId := p.2,
                    teamId := shuffledPool.getD p.1 "" : Assignment })
      .ok (DatabaseService.addAssignments st1 newAssignments)

/-! ### `generateFixturesAlgorithm` (src/utils/logic.ts, lines 4-67) -/

/-- One round-robin rotation step (logic.ts line 49):
`rotation.splice(1, 0, rotation.pop()!)` removes the last element and
reinserts it at index 1 — the head stays fixed, the tail rotates right by
one position. -/
def rotStep {α : Type} : List α → List α
  | [] => []
  | a :: rest =>
    match rest.getLast? with
    | none => [a]
    | some last => a :: last :: rest.dropLast

/-- The rotation list at the start of round `r`: the source rotates once at
the end of every round, starting from the padded player list. -/
def rotAt {α : Type} (fp : List α) (r : Nat) : List α := rotStep^[r] fp

/-- JavaScript truthiness applied to an optional team id by the conditional
spread `...(teamA ? { teamAId: teamA } : {})`: `undefined` and `""` are falsy
and omitted. -/
def jsTruthy (o : Option String) : Option String :=
  match o with
  | some s => if s = "" then none else some s
  | none => none

/-- The match object pushed for pair index `i` of round `round`
(logic.ts lines 26-45), given the two players of the slot. -/
def mkFirstHalfMatch (tournamentId : String) (assignments : List Assignment)
    (isUsersOnly : Bool) (round : Nat) (i : Nat) (p1 p2 : String) : Match :=
  let doSwap := (round + i) % 2 == 0
  let playerA := if doSwap then p2 else p1
  let playerB := if doSwap then p1 else p2
  let teamA := if isUsersOnly then none
               else (assignments.find? (fun a => a.userId == playerA)).map (·.teamId)
  let teamB := if isUsersOnly then none
               else (assignments.find? (fun a => a.userId == playerB)).map (·.teamId)
  { id := ""
    tournamentId := tournamentId
    matchday := round + 1
    playerAId := playerA
    playerBId := playerB
    teamAId := jsTruthy teamA
    teamBId := jsTruthy teamB
    scoreA := none
    scoreB := none
    isCompleted := false }

/-- The inner loop over `i < numPlayers / 2` of one round (logic.ts lines
21-47): a pairing touching the `'GHOST'` sentinel is discarded. -/
def roundMatches (tournamentId : String) (assignments : List Assignment)
    (isUsersOnly : Bool) (fp : List String) (round : Nat) : List Match :=
  let n := fp.length
  let rot := rotAt fp round
  (List.range (n / 2)).filterMap (fun i =>
    let p1 := rot.getD i ""
    let p2 := rot.getD (n - 1 - i) ""
    if p1 ≠ "GHOST" ∧ p2 ≠ "GHOST" then
      some (mkFirstHalfMatch tournamentId assignments isUsersOnly round i p1 p2)
    else none)

/-- The second-leg image of a first-leg match (logic.ts lines 52-64):
players and teams swapped, matchday shifted by the first-leg round count. -/
def secondHalfMatch (rounds : Nat) (m : Match) : Match :=
  { id := ""
    tournamentId := m.tournamentId
    matchday := m.matchday + rounds
    playerAId := m.playerBId
    playerBId := m.playerAId
    teamAId := jsTruthy m.teamBId
    teamBId := jsTruthy m.teamAId
    scoreA := none
    scoreB := none
    isCompleted := false }

/-- `generateFixturesAlgorithm` (logic.ts lines 4-67). -/
def generateFixturesAlgorithm (tournamentId : String) (participants : List String)
    (assignments : List Assignment) (isUsersOnly : Bool) : List Match :=
  let players := participants
  let isOdd := players.length % 2 != 0
  let fixturePlayers := if isOdd then players ++ ["GHOST"] else players
  let numPlayers := fixturePlayers.length
  let rounds := numPlayers - 1
  let firstHalf := (List.range rounds).flatMap
    (roundMatches tournamentId assignments isUsersOnly fixturePlayers)
  let secondHalf := firstHalf.map (secondHalfMatch rounds)
  firstHalf ++ secondHalf

/-! ### `calculateStandingsLogic` (src/utils/logic.ts, lines 69-108) -/

/-- `GlobalTeam` from `types.ts`, restricted to identity (the standings
signature receives the team list but never reads it). -/
structure GlobalTeam where
  id : String
  name : String
deriving DecidableEq, Repr

/-- Assignment into a JavaScript `Record<string, StandingStat>`: an existing
key keeps its (first-insertion) position and gets the new value, a fresh key
is appended. -/
def recSet : List (String × StandingStat) → String → StandingStat →
    List (String × StandingStat)
  | [], k, v => [(k, v)]
  | (k', v') :: rest, k, v =>
    if k' = k then (k', v) :: rest else (k', v') :: recSet rest k v

/-- Key-presence test on the record. -/
def recHas (l : List (String × StandingStat)) (k : String) : Bool :=
  l.any (fun e => e.1 == k)

/-- The all-zero row created for a roster member (logic.ts lines 79-85). -/
def initStat (allUsers : List User) (userId : String) : StandingStat :=
  let username := match allUsers.find? (fun u => u.id == userId) with
    | some u => u.username
    | none => "Unknown User"
  { id := userId, username := username, p := 0, w := 0, d := 0, l := 0,
    gf := 0, ga := 0, pts := 0 }

/-- The per-side statistics bumps of one completed match applied to the row
keyed `k` (logic.ts lines 93-102).  When `k` is both `playerAId` and
`playerBId` the two bumps accumulate, exactly as the aliased JavaScript
object mutations would. -/
def matchDelta (k : String) (m : Match) (s : StandingStat) : StandingStat :=
  let scoreA := m.scoreA.getD 0
  let scoreB := m.scoreB.getD 0
  let s1 :=
    if k = m.playerAId then
      { s with p := s.p + 1, gf := s.gf + scoreA, ga := s.ga + scoreB,
               w := if scoreA > scoreB then s.w + 1 else s.w,
               l := if scoreA < scoreB then s.l + 1 else s.l,
               d := if scoreA = scoreB then s.d + 1 else s.d,
               pts := if scoreA > scoreB then s.pts + 3
                      else if scoreA = scoreB then s.pts + 1 else s.pts }
    else s
  if k = m.playerBId then
    { s1 with p := s1.p + 1, gf := s1.gf + scoreB, ga := s1.ga + scoreA,
              w := if scoreB > scoreA then s1.w + 1 else s1.w,
              l := if scoreB < scoreA then s1.l + 1 else s1.l,
              d := if scoreA = scoreB then s1.d + 1 else s1.d,
              pts := if scoreB > scoreA then s1.pts + 3
                     else if scoreA = scoreB then s1.pts + 1 else s1.pts }
  else s1

/-- Folding one completed match into the record (logic.ts lines 87-103):
if either player is missing from the record the match is skipped
(`if (!sA || !sB) return`), otherwise both rows are bumped in place. -/
def applyMatch (acc : List (String × StandingStat)) (m : Match) :
    List (String × StandingStat) :=
  if recHas acc m.playerAId && recHas acc m.playerBId then
    acc.map (fun e => (e.1, matchDelta e.1 m e.2))
  else acc

/-- The sort comparator (logic.ts lines 105-107):
`b.pts - a.pts || (b.gf - b.ga) - (a.gf - a.ga) || b.gf - a.gf`;
JavaScript `||` selects the first non-zero difference. -/
def cmpJS (a b : StandingStat) : ℚ :=
  let d1 : ℚ := (b.pts : ℚ) - (a.pts : ℚ)
  if d1 ≠ 0 then d1 else
  let d2 : ℚ := (b.gf - b.ga) - (a.gf - a.ga)
  if d2 ≠ 0 then d2 else b.gf - a.gf

/-- `calculateStandingsLogic` (logic.ts lines 69-108).  `Object.values` of an
insertion-ordered record is the value projection of the association list;
`Array.prototype.sort` is a stable sort by the comparator (modelled by
`mergeSort`, which is stable).  The last three parameters are part of the
source signature but never read by the body. -/
def calculateStandingsLogic (participants : List String) (matchList : List Match)
    (allUsers : List User) (allAssignments : List Assignment)
    (globalTeams : List GlobalTeam) (isUsersOnly : Bool) : List StandingStat :=
  let _ := allAssignments
  let _ := globalTeams
  let _ := isUsersOnly
  let statsMap := participants.foldl
    (fun acc userId => recSet acc userId (initStat allUsers userId)) []
  let folded := (matchList.filter (fun m => m.isCompleted)).foldl applyMatch statsMap
  (folded.map Prod.snd).mergeSort (fun a b => decide (cmpJS a b ≤ 0))

/-! ### Concrete database fixtures used by counterexamples and witnesses -/

/-- A Finished tournament. -/
def tFin : Tournament :=
  { id := "t1", status := .finished, participantUserIds := ["u1", "u2"],
    selectedTeamIds := [] }

/-- A completed match of the Finished tournament. -/
def mFin : Match :=
  { id := "m1", tournamentId := "t1", matchday := 1, playerAId := "u1",
    playerBId := "u2", teamAId := none, teamBId := none,
    scoreA := some 2, scoreB := some 1, isCompleted := true }

/-- A match of an unrelated tournament. -/
def mOther : Match :=
  { id := "m2", tournamentId := "t2", matchday := 1, playerAId := "u3",
    playerBId := "u4", teamAId := none, teamBId := none,
    scoreA := none, scoreB := none, isCompleted := false }

/-- An assignment of the Finished tournament. -/
def aFin : Assignment := { tournamentId := "t1", userId := "u1", teamId := "teamX" }

/-- A chat message scoped to the Finished tournament. -/
def cFin : ChatMessage :=
  { id := "c1", userId := "u1", tournamentId := some "t1", timestamp := "2024-01-01T10:00:00Z" }

/-- A global chat message (no tournament scope). -/
def cGlobal : ChatMessage :=
  { id := "c2", userId := "u1", tournamentId := none, timestamp := "2024-01-01T11:00:00Z" }

/-- A database holding the Finished tournament `"t1"` with one completed
match, one assignment and one scoped chat message, plus an unrelated match
and a global chat message. -/
def stFin : DBState :=
  { tournaments := [tFin], matches' := [mFin, mOther],
    assignments := [aFin], chatMessages := [cFin, cGlobal] }

/-- One hundred global chat messages with timestamps `"100" .. "199"`,
all older than `cLate`. -/
def chatFlood : List ChatMessage :=
  (List.range 100).map (fun i =>
    { id := toString (100 + i), userId := "u1", tournamentId := none,
      timestamp := toString (100 + i) })

/-- The newest chat message, scoped to tournament `"t1"`: timestamp `"300"`
sorts after the whole flood, so it lies outside the 100-document window. -/
def cLate : ChatMessage :=
  { id := "300", userId := "u1", tournamentId := some "t1", timestamp := "300" }

/-- A store whose chat collection holds 101 messages, the tournament-scoped
one being the newest. -/
def stChat : DBState :=
  { tournaments := [tFin], matches' := [], assignments := [],
    chatMessages := chatFlood ++ [cLate] }

/-! ### C1 — resetting a Finished tournament -/

/-- C1: the specified guard does not exist in the code.
`resetTournamentSchedule` never reads the tournament status: applied to the
Finished tournament `"t1"` it forces the status back to Upcoming and deletes
the tournament's matches and assignments, so Finished is not terminal and
recorded results are discarded (evaluation of the embedded source at the
failing input). -/
theorem resetTournamentSchedule_discards_finished_results :
    (DatabaseService.resetTournamentSchedule stFin "t1").tournaments
      = [{ tFin with status := .upcoming }] ∧
    (DatabaseService.resetTournamentSchedule stFin "t1").matches' = [mOther] ∧
    (DatabaseService.resetTournamentSchedule stFin "t1").assignments = [] := by
  decide

/-! ### C9 — cascading delete, in both cited implementations -/

/-- The `db.ts` `deleteTournament id` retains, in each of the four
collections, exactly the records that do not reference `id` (each result
collection is a sublist of the original, so surviving records are untouched
and in their original order). -/
theorem deleteTournament_cascade_exact (st : DBState) (id : String) :
    (∀ t, t ∈ (DatabaseService.deleteTournament st id).tournaments
        ↔ t ∈ st.tournaments ∧ t.id ≠ id) ∧
    (∀ m, m ∈ (DatabaseService.deleteTournament st id).matches'
        ↔ m ∈ st.matches' ∧ m.tournamentId ≠ id) ∧
    (∀ a, a ∈ (DatabaseService.deleteTournament st id).assignments
        ↔ a ∈ st.assignments ∧ a.tournamentId ≠ id) ∧
    (∀ c, c ∈ (DatabaseService.deleteTournament st id).chatMessages
        ↔ c ∈ st.chatMessages ∧ c.tournamentId ≠ some id) ∧
    (DatabaseService.deleteTournament st id).tournaments.Sublist st.tournaments ∧
    (DatabaseService.deleteTournament st id).matches'.Sublist st.matches' ∧
    (DatabaseService.deleteTournament st id).assignments.Sublist st.assignments ∧
    (DatabaseService.deleteTournament st id).chatMessages.Sublist st.chatMessages := by
  refine ⟨fun t => ?_, fun m => ?_, fun a => ?_, fun c => ?_, ?_, ?_, ?_, ?_⟩ <;>
    simp [DatabaseService.deleteTournament, List.mem_filter, List.filter_sublist]

/-- Concrete check of the `db.ts` cascade at the store `stFin`: the
unrelated match survives and the deleted tournament's match does not. -/
theorem deleteTournament_cascade_exact_witness :
    mOther ∈ (DatabaseService.deleteTournament stFin "t1").matches' ∧
    mFin ∉ (DatabaseService.deleteTournament stFin "t1").matches' := by
  constructor
  · exact ((deleteTournament_cascade_exact stFin "t1").2.1 mOther).mpr
      ⟨by decide, by decide⟩
  · intro hmem
    have h := ((deleteTournament_cascade_exact stFin "t1").2.1 mFin).mp hmem
    exact absurd h.2 (by decide)

/-- `charListLe` is total. -/
theorem charListLe_total : ∀ a b, (charListLe a b || charListLe b a) = true
  | [], b => by simp [charListLe]
  | a :: as, [] => by simp [charListLe]
  | a :: as, b :: bs => by
    simp only [charListLe]
    by_cases h1 : a.toNat < b.toNat
    · simp [h1]
    · by_cases h2 : b.toNat < a.toNat
      · simp [h1, h2]
      · simp only [if_neg h1, if_neg h2]
        exact charListLe_total as bs

/-- `charListLe` is transitive. -/
theorem charListLe_trans : ∀ a b c, charListLe a b = true → charListLe b c = true →
    charListLe a c = true
  | [], _, _ => by simp [charListLe]
  | a :: as, [], c => by simp [charListLe]
  | a :: as, b :: bs, [] => by simp [charListLe]
  | a :: as, b :: bs, c :: cs => by
    intro h1 h2
    simp only [charListLe] at h1 h2 ⊢
    by_cases hab : a.toNat < b.toNat
    · by_cases hbc : b.toNat < c.toNat
      · rw [if_pos (show a.toNat < c.toNat by omega)]
      · by_cases hcb : c.toNat < b.toNat
        · rw [if_neg hbc, if_pos hcb] at h2
          exact absurd h2 (by simp)
        · rw [if_pos (show a.toNat < c.toNat by omega)]
    · by_cases hba : b.toNat < a.toNat
      · rw [if_neg hab, if_pos hba] at h1
        exact absurd h1 (by simp)
      · rw [if_neg hab, if_neg hba] at h1
        by_cases hbc : b.toNat < c.toNat
        · rw [if_pos (show a.toNat < c.toNat by omega)]
        · by_cases hcb : c.toNat < b.toNat
          · rw [if_neg hbc, if_pos hcb] at h2
            exact absurd h2 (by simp)
          · rw [if_neg hbc, if_neg hcb] at h2
            rw [if_neg (show ¬ a.toNat < c.toNat by omega),
              if_neg (show ¬ c.toNat < a.toNat by omega)]
            exact charListLe_trans as bs cs h1 h2

/-- An element strictly above every other element of a list of length
`n + 1` is not among the first `n` entries of the sorted list. -/
theorem strict_max_not_in_take {α : Type} [DecidableEq α] (le : α → α → Bool)
    (htrans : ∀ a b c, le a b = true → le b c = true → le a c = true)
    (htotal : ∀ a b, (le a b || le b a) = true)
    (l : List α) (c : α) (n : Nat)
    (hcount : l.count c = 1)
    (hmax : ∀ d ∈ l, d ≠ c → le c d = false)
    (hlen : l.length = n + 1) :
    c ∉ (l.mergeSort le).take n := by
  intro hc
  have hperm := List.mergeSort_perm l le
  have hsl : (l.mergeSort le).length = n + 1 := by rw [hperm.length_eq, hlen]
  have hsort := List.sorted_mergeSort htrans htotal l
  obtain ⟨i, hi, hci⟩ := List.getElem_of_mem hc
  have hitn : i < n := by
    rw [List.length_take] at hi
    omega
  have hisn : i < (l.mergeSort le).length := by omega
  rw [List.getElem_take] at hci
  have hn_lt : n < (l.mergeSort le).length := by omega
  have hsn_ne : (l.mergeSort le)[n] ≠ c := by
    intro he
    have hcnt : (l.mergeSort le).count c = 1 := by rw [hperm.count_eq, hcount]
    have h1 : 0 < ((l.mergeSort le).take n).count c := List.count_pos_iff.mpr hc
    have h2 : 0 < ((l.mergeSort le).drop n).count c := by
      refine List.count_pos_iff.mpr ?_
      rw [List.drop_eq_getElem_cons hn_lt, he]
      exact List.mem_cons_self _ _
    have h3 : (l.mergeSort le).count c
        = ((l.mergeSort le).take n).count c + ((l.mergeSort le).drop n).count c := by
      rw [← List.count_append, List.take_append_drop]
    omega
  have hpg := List.pairwise_iff_getElem.mp hsort i n hisn hn_lt hitn
  rw [hci] at hpg
  have hmem : (l.mergeSort le)[n] ∈ l := by
    have hmem2 : (l.mergeSort le)[n] ∈ l.mergeSort le := List.getElem_mem hn_lt
    rwa [List.mem_mergeSort] at hmem2
  rw [hmax _ hmem hsn_ne] at hpg
  exact absurd hpg (by simp)

/-- Membership in the Firestore chat query result: inside the
100-oldest-by-timestamp window and scoped to the (non-empty) tournament
id. -/
theorem mem_getChat (st : DBState) (id : String) (hid : id ≠ "")
    (c : ChatMessage) :
    c ∈ DatabaseService3.getChat st id ↔
      c ∈ (st.chatMessages.mergeSort
          (fun a b => strLe a.timestamp b.timestamp)).take 100 ∧
      c.tournamentId = some id := by
  simp only [DatabaseService3.getChat]
  rw [if_pos hid, List.mem_filter]
  simp [beq_iff_eq]

/-- C9 (amended): the `db.ts` `deleteTournament` removes from each of the
four collections exactly the records referencing the deleted id; the
Firestore implementation (part_003) fully cascades matches and assignments
too, but its chat cascade reaches only the messages inside `getChat`'s
100-oldest-by-timestamp window — a chat message of the tournament is
removed iff it lies inside that window, so later scoped messages survive
the delete. -/
theorem deleteTournament_cascade_spec (st : DBState) (id : String)
    (hid : id ≠ "") :
    ((∀ t, t ∈ (DatabaseService.deleteTournament st id).tournaments
        ↔ t ∈ st.tournaments ∧ t.id ≠ id) ∧
     (∀ m, m ∈ (DatabaseService.deleteTournament st id).matches'
        ↔ m ∈ st.matches' ∧ m.tournamentId ≠ id) ∧
     (∀ a, a ∈ (DatabaseService.deleteTournament st id).assignments
        ↔ a ∈ st.assignments ∧ a.tournamentId ≠ id) ∧
     (∀ c, c ∈ (DatabaseService.deleteTournament st id).chatMessages
        ↔ c ∈ st.chatMessages ∧ c.tournamentId ≠ some id) ∧
     (DatabaseService.deleteTournament st id).tournaments.Sublist st.tournaments ∧
     (DatabaseService.deleteTournament st id).matches'.Sublist st.matches' ∧
     (DatabaseService.deleteTournament st id).assignments.Sublist st.assignments ∧
     (DatabaseService.deleteTournament st id).chatMessages.Sublist st.chatMessages) ∧
    (DatabaseService3.deleteTournament st id).tournaments
        = st.tournaments.filter (fun t => t.id ≠ id) ∧
    (DatabaseService3.deleteTournament st id).matches'
        = st.matches'.filter (fun m => m.tournamentId ≠ id) ∧
    (DatabaseService3.deleteTournament st id).assignments
        = st.assignments.filter (fun a => a.tournamentId ≠ id) ∧
    (∀ c ∈ st.chatMessages,
      c ∈ (DatabaseService3.deleteTournament st id).chatMessages
        ↔ ¬(c.tournamentId = some id ∧
            c ∈ (st.chatMessages.mergeSort
              (fun a b => strLe a.timestamp b.timestamp)).take 100)) := by
  refine ⟨deleteTournament_cascade_exact st id, rfl, rfl, rfl, ?_⟩
  intro c hc
  simp only [DatabaseService3.deleteTournament, List.mem_filter]
  constructor
  · rintro ⟨-, h2⟩
    rw [decide_eq_true_eq] at h2
    rintro ⟨hct, hcw⟩
    exact h2 ((mem_getChat st id hid c).mpr ⟨hcw, hct⟩)
  · intro hn
    refine ⟨hc, ?_⟩
    rw [decide_eq_true_eq]
    intro hmem
    have h3 := (mem_getChat st id hid c).mp hmem
    exact hn ⟨h3.2, h3.1⟩

/-- C9 counterexample: deleting tournament `"t1"` on a store whose chat
collection holds 101 messages leaves the tournament's own chat message in
place — it is the newest, so `getChat`'s `limit(100)` window never fetches
it and the batch delete never sees it. A record referencing the deleted id
remains, refuting the claimed complete cascade. -/
theorem deleteTournament_chat_limit_ctrex :
    cLate ∈ stChat.chatMessages ∧ cLate.tournamentId = some "t1" ∧
    cLate ∈ (DatabaseService3.deleteTournament stChat "t1").chatMessages := by
  have hnot : cLate ∉ (stChat.chatMessages.mergeSort
      (fun a b => strLe a.timestamp b.timestamp)).take 100 := by
    refine strict_max_not_in_take (fun a b => strLe a.timestamp b.timestamp)
      ?_ ?_ stChat.chatMessages cLate 100 (by decide) (by decide) (by decide)
    · intro x y z hxy hyz
      simp only [strLe] at hxy hyz ⊢
      exact charListLe_trans _ _ _ hxy hyz
    · intro x y
      simp only [strLe]
      exact charListLe_total _ _
  refine ⟨by decide, by decide, ?_⟩
  simp only [DatabaseService3.deleteTournament, List.mem_filter]
  refine ⟨by decide, ?_⟩
  rw [decide_eq_true_eq]
  intro hmem
  exact hnot ((mem_getChat stChat "t1" (by decide) cLate).mp hmem).1

/-- Witness for C9 at the concrete store `stFin` and id `"t1"`. -/
theorem deleteTournament_cascade_spec_witness :
    ("t1" : String) ≠ "" ∧
    (DatabaseService3.deleteTournament stFin "t1").matches'
        = stFin.matches'.filter (fun m => m.tournamentId ≠ "t1") ∧
    (cGlobal ∈ (DatabaseService3.deleteTournament stFin "t1").chatMessages
      ↔ ¬(cGlobal.tournamentId = some "t1" ∧
          cGlobal ∈ (stFin.chatMessages.mergeSort
            (fun a b => strLe a.timestamp b.timestamp)).take 100)) :=
  ⟨by decide,
   (deleteTournament_cascade_spec stFin "t1" (by decide)).2.2.1,
   (deleteTournament_cascade_spec stFin "t1" (by decide)).2.2.2.2 cGlobal (by decide)⟩

/-! ### C10 — undoMatchResult frame property (first implementation) -/

/-- C10: on an existing match id, the first implementation's
`undoMatchResult` succeeds and rewrites only the first match with that id,
and only its `isCompleted` field (the `{ m with isCompleted := false }`
update keeps `scoreA`, `scoreB` and all other fields); every other index and
every other collection is untouched. -/
theorem undoMatchResult_frame (st : DBState) (id : String) (i : Nat)
    (hi : st.matches'.findIdx? (fun m => m.id == id) = some i) :
    ∃ st', DatabaseService.undoMatchResult st id = .ok st' ∧
      st'.tournaments = st.tournaments ∧
      st'.assignments = st.assignments ∧
      st'.chatMessages = st.chatMessages ∧
      st'.matches'.length = st.matches'.length ∧
      (∀ j, j ≠ i → st'.matches'[j]? = st.matches'[j]?) ∧
      st'.matches'[i]? = (st.matches'[i]?).map
        (fun m => { m with isCompleted := false }) := by
  have hdef : DatabaseService.undoMatchResult st id
      = .ok { st with matches' := st.matches'.modify (fun m => { m with isCompleted := false }) i } := by
    unfold DatabaseService.undoMatchResult
    rw [hi]
  refine ⟨_, hdef, rfl, rfl, rfl, by simp, ?_, ?_⟩
  · intro j hj
    simp only [List.getElem?_modify]
    cases st.matches'[j]? with
    | none => rfl
    | some m => simp [Ne.symm hj]
  · simp only [List.getElem?_modify]
    cases st.matches'[i]? with
    | none => rfl
    | some m => simp

/-- Witness for C10 at the concrete store `stFin` and match `"m1"`
(index 0). -/
theorem undoMatchResult_frame_witness :
    stFin.matches'.findIdx? (fun m => m.id == "m1") = some 0 ∧
    ∃ st', DatabaseService.undoMatchResult stFin "m1" = .ok st' ∧
      st'.tournaments = stFin.tournaments ∧
      st'.assignments = stFin.assignments ∧
      st'.chatMessages = stFin.chatMessages ∧
      st'.matches'.length = stFin.matches'.length ∧
      (∀ j, j ≠ 0 → st'.matches'[j]? = stFin.matches'[j]?) ∧
      st'.matches'[0]? = (stFin.matches'[0]?).map
        (fun m => { m with isCompleted := false }) :=
  ⟨by decide, undoMatchResult_frame stFin "m1" 0 (by decide)⟩

/-! ### C2 — updateMatch validation and the missing Finished lock -/

/-- C2 counterexample: `updateMatch` never inspects the tournaments
collection.  On the Finished tournament `"t1"` the first implementation
accepts a valid result for match `"m1"`, and the second implementation even
accepts a negative score — neither fails as the claim requires. -/
theorem updateMatch_accepts_finished_ctrex :
    exceptOk (DatabaseService.updateMatch stFin "m1" (JSNum.val 3) (JSNum.val 0))
      = true ∧
    exceptOk (DatabaseService2.updateMatch stFin "m1" (-1) 0) = true := by
  decide

/-- C2 (amended): the first implementation's `updateMatch` fails with the
NaN/non-negative-integer validation messages and with `"Match not found."`
on an unknown id — and an error means nothing was written, since the source
throws before `this.save()` — but no tournament-status check exists in
either implementation: the result is independent of the tournaments
collection (so results are accepted for Finished tournaments; the UI layer
alone guards that), and the second implementation performs no score
validation at all, accepting any scores for an existing match id. -/
theorem updateMatch_validation_no_lock (st : DBState) (id : String) :
    (∀ b, DatabaseService.updateMatch st id JSNum.nan b
        = .error "Invalid score value (NaN).") ∧
    (∀ qa, DatabaseService.updateMatch st id (JSNum.val qa) JSNum.nan
        = .error "Invalid score value (NaN).") ∧
    (∀ qa qb, (qa < 0 ∨ qb < 0 ∨ qa.den ≠ 1 ∨ qb.den ≠ 1) →
      DatabaseService.updateMatch st id (JSNum.val qa) (JSNum.val qb)
        = .error "Scores must be non-negative integers.") ∧
    (∀ qa qb, (∀ m ∈ st.matches', m.id ≠ id) →
      ¬(qa < 0 ∨ qb < 0 ∨ qa.den ≠ 1 ∨ qb.den ≠ 1) →
      DatabaseService.updateMatch st id (JSNum.val qa) (JSNum.val qb)
        = .error "Match not found.") ∧
    (∀ a b ts, DatabaseService.updateMatch { st with tournaments := ts } id a b
        = Except.map (fun st2 => { st2 with tournaments := ts })
            (DatabaseService.updateMatch st id a b)) ∧
    (∀ q1 q2 : ℚ, (∃ m ∈ st.matches', m.id = id) →
      exceptOk (DatabaseService2.updateMatch st id q1 q2) = true) ∧
    (∀ q1 q2 : ℚ, (∀ m ∈ st.matches', m.id ≠ id) →
      DatabaseService2.updateMatch st id q1 q2 = .error "Match not found.") := by
  refine ⟨fun b => rfl, fun qa => rfl, ?_, ?_, ?_, ?_, ?_⟩
  · intro qa qb h
    simp only [DatabaseService.updateMatch]
    rw [if_pos h]
  · intro qa qb hno hv
    have hnone : st.matches'.findIdx? (fun m => m.id == id) = none := by
      rw [List.findIdx?_eq_none_iff]
      intro x hx
      simpa using hno x hx
    simp only [DatabaseService.updateMatch]
    rw [if_neg hv]
    simp only [hnone]
  · intro a b ts
    cases a with
    | nan => rfl
    | val qa =>
      cases b with
      | nan => rfl
      | val qb =>
        simp only [DatabaseService.updateMatch]
        by_cases h : qa < 0 ∨ qb < 0 ∨ qa.den ≠ 1 ∨ qb.den ≠ 1
        · rw [if_pos h, if_pos h]
          rfl
        · rw [if_neg h, if_neg h]
          cases hseek : st.matches'.findIdx? (fun m => m.id == id) <;>
            simp [hseek, Except.map]
  · intro q1 q2 hex
    have hsome : (st.matches'.find? (fun m => m.id == id)).isSome := by
      rw [List.find?_isSome]
      obtain ⟨m, hm, hid⟩ := hex
      exact ⟨m, hm, by simpa using hid⟩
    unfold DatabaseService2.updateMatch
    cases hf : st.matches'.find? (fun m => m.id == id) with
    | none => rw [hf] at hsome; simp at hsome
    | some y => simp [hf, exceptOk]
  · intro q1 q2 hno
    have hnone : st.matches'.find? (fun m => m.id == id) = none := by
      rw [List.find?_eq_none]
      intro x hx
      simpa using hno x hx
    unfold DatabaseService2.updateMatch
    simp only [hnone]

/-- An Upcoming lottery tournament with a two-member roster. -/
def tUp : Tournament :=
  { id := "t3", status := .upcoming, participantUserIds := ["u1", "u2"],
    selectedTeamIds := ["teamA", "teamB", "teamC"] }

/-- A database holding the Upcoming tournament `"t3"` with one stale
assignment of that tournament and one assignment of another tournament. -/
def stUp : DBState :=
  { tournaments := [tUp]
    matches' := []
    assignments := [{ tournamentId := "t3", userId := "u1", teamId := "teamC" },
                    { tournamentId := "t9", userId := "u7", teamId := "teamZ" }]
    chatMessages := [] }

/-! ### C4 — the lottery draw -/

/-- C4: with an Upcoming tournament and a duplicate-free shuffled pool,
`runLottery` fails with `InsufficientPoolError` naming the required roster
size (and writes nothing) when the pool is smaller than the roster; otherwise
it succeeds, the tournament's assignments afterwards are exactly the
positional pairing of the unshuffled roster with the pool prefix (so exactly
`N` of them, one per roster member, the `i`-th member with the `i`-th pool
team, all prior assignments of the tournament discarded), no team is used
twice, and other tournaments' assignments are untouched. -/
theorem runLottery_spec (st : DBState) (t : Tournament) (pool : List String)
    (hst : t.status = .upcoming) (hnd : pool.Nodup) :
    (pool.length < t.participantUserIds.length →
      runLottery st t pool
        = .error (.insufficientPool t.participantUserIds.length pool.length)) ∧
    (t.participantUserIds.length ≤ pool.length →
      ∃ st', runLottery st t pool = .ok st' ∧
        st'.assignments.filter (fun a => a.tournamentId == t.id)
          = t.participantUserIds.enum.map
              (fun p => { tournamentId := t.id, userId := p.2,
                          teamId := pool.getD p.1 "" : Assignment }) ∧
        (st'.assignments.filter (fun a => a.tournamentId == t.id)).length
          = t.participantUserIds.length ∧
        ((st'.assignments.filter (fun a => a.tournamentId == t.id)).map
            (fun a => a.teamId)).Nodup ∧
        st'.assignments.filter (fun a => a.tournamentId ≠ t.id)
          = st.assignments.filter (fun a => a.tournamentId ≠ t.id)) := by
  have hupc : ¬ t.status ≠ TournamentStatus.upcoming := by simp [hst]
  constructor
  · intro hlt
    unfold runLottery
    rw [if_neg hupc, if_pos hlt]
  · intro hge
    have hnlt : ¬ pool.length < t.participantUserIds.length := Nat.not_lt.mpr hge
    refine ⟨_, by unfold runLottery; rw [if_neg hupc, if_neg hnlt], ?_, ?_, ?_, ?_⟩
    · -- the new assignments all carry the tournament id, the survivors none
      simp only [DatabaseService.addAssignments, DatabaseService.resetTournamentSchedule,
        List.filter_append]
      rw [List.filter_eq_nil_iff.mpr, List.filter_eq_self.mpr, List.nil_append]
      · intro a ha
        have := (List.mem_map.mp ha)
        obtain ⟨p, _, rfl⟩ := this
        simp
      · intro a ha hpa
        have ha2 := List.of_mem_filter ha
        simp only [decide_not, Bool.not_eq_eq_eq_not, Bool.not_true, decide_eq_false_iff_not] at ha2
        exact ha2 (by simpa using hpa)
    · -- exactly one assignment per roster member
      simp only [DatabaseService.addAssignments, DatabaseService.resetTournamentSchedule,
        List.filter_append]
      rw [List.filter_eq_nil_iff.mpr, List.filter_eq_self.mpr, List.nil_append]
      · simp [List.enum_eq_enumFrom]
      · intro a ha
        obtain ⟨p, _, rfl⟩ := List.mem_map.mp ha
        simp
      · intro a ha hpa
        have ha2 := List.of_mem_filter ha
        simp only [decide_not, Bool.not_eq_eq_eq_not, Bool.not_true, decide_eq_false_iff_not] at ha2
        exact ha2 (by simpa using hpa)
    · -- no team is assigned twice
      simp only [DatabaseService.addAssignments, DatabaseService.resetTournamentSchedule,
        List.filter_append]
      rw [List.filter_eq_nil_iff.mpr, List.filter_eq_self.mpr, List.nil_append]
      · rw [List.map_map]
        have hmap : ((fun a : Assignment => a.teamId) ∘ (fun p : Nat × String => { tournamentId := t.id, userId := p.2, teamId := pool.getD p.1 "" : Assignment })) = (fun p : Nat × String => pool.getD p.1 "") := rfl
        rw [hmap]
        have h2 : t.participantUserIds.enum.map (fun p : Nat × String => pool.getD p.1 "")
            = (t.participantUserIds.enum.map Prod.fst).map (fun i => pool.getD i "") := by
          rw [List.map_map]; rfl
        rw [h2, List.enum_eq_enumFrom, List.enumFrom_map_fst]
        refine List.Nodup.map_on ?_ (List.nodup_range' ..)
        intro x hx y hy hxy
        have hx2 : x < t.participantUserIds.length := by
          have := List.mem_range'_1.mp hx; omega
        have hy2 : y < t.participantUserIds.length := by
          have := List.mem_range'_1.mp hy; omega
        have hxp : x < pool.length := Nat.lt_of_lt_of_le hx2 hge
        have hyp : y < pool.length := Nat.lt_of_lt_of_le hy2 hge
        rw [List.getD_eq_getElem?_getD, List.getD_eq_getElem?_getD,
          List.getElem?_eq_getElem hxp, List.getElem?_eq_getElem hyp] at hxy
        simp only [Option.getD_some] at hxy
        exact (List.Nodup.getElem_inj_iff hnd).mp hxy
      · intro a ha
        obtain ⟨p, _, rfl⟩ := List.mem_map.mp ha
        simp
      · intro a ha hpa
        have ha2 := List.of_mem_filter ha
        simp only [decide_not, Bool.not_eq_eq_eq_not, Bool.not_true, decide_eq_false_iff_not] at ha2
        exact ha2 (by simpa using hpa)
    · -- other tournaments' assignments unchanged
      simp only [DatabaseService.addAssignments, DatabaseService.resetTournamentSchedule,
        List.filter_append]
      have hnew : (t.participantUserIds.enum.map (fun p : Nat × String => { tournamentId := t.id, userId := p.2, teamId := pool.getD p.1 "" : Assignment })).filter (fun a => decide (a.tournamentId ≠ t.id)) = [] := by
        rw [List.filter_eq_nil_iff]
        intro a ha
        obtain ⟨p, _, rfl⟩ := List.mem_map.mp ha
        simp
      rw [hnew, List.append_nil, List.filter_filter]
      apply List.filter_congr
      intro a _
      simp

/-- Witness for C4: a two-member roster drawn from a three-team pool, and the
failure on a one-team pool. -/
theorem runLottery_spec_witness :
    (tUp.status = .upcoming ∧ (["teamA", "teamB", "teamC"] : List String).Nodup) ∧
    (∃ st', runLottery stUp tUp ["teamA", "teamB", "teamC"] = .ok st' ∧
        st'.assignments.filter (fun a => a.tournamentId == "t3")
          = tUp.participantUserIds.enum.map
              (fun p => { tournamentId := "t3", userId := p.2,
                          teamId := (["teamA", "teamB", "teamC"] : List String).getD p.1 "" : Assignment }) ∧
        (st'.assignments.filter (fun a => a.tournamentId == "t3")).length
          = tUp.participantUserIds.length ∧
        ((st'.assignments.filter (fun a => a.tournamentId == "t3")).map
            (fun a => a.teamId)).Nodup ∧
        st'.assignments.filter (fun a => a.tournamentId ≠ "t3")
          = stUp.assignments.filter (fun a => a.tournamentId ≠ "t3")) ∧
    runLottery stUp tUp ["teamA"]
      = .error (.insufficientPool 2 1) := by
  refine ⟨⟨rfl, by decide⟩, ?_, ?_⟩
  · exact (runLottery_spec stUp tUp ["teamA", "teamB", "teamC"] rfl (by decide)).2 (by decide)
  · exact (runLottery_spec stUp tUp ["teamA"] rfl (by decide)).1 (by decide)

/-! ### Membership structure of the fixture generator -/

/-- The home side of a slot match is determined by the swap parity. -/
theorem mkFirstHalfMatch_playerA (tid : String) (as_ : List Assignment)
    (uo : Bool) (r i : Nat) (p1 p2 : String) :
    (mkFirstHalfMatch tid as_ uo r i p1 p2).playerAId
      = if (r + i) % 2 = 0 then p2 else p1 := by
  simp [mkFirstHalfMatch]

/-- The away side of a slot match is determined by the swap parity. -/
theorem mkFirstHalfMatch_playerB (tid : String) (as_ : List Assignment)
    (uo : Bool) (r i : Nat) (p1 p2 : String) :
    (mkFirstHalfMatch tid as_ uo r i p1 p2).playerBId
      = if (r + i) % 2 = 0 then p1 else p2 := by
  simp [mkFirstHalfMatch]

/-- A slot match carries matchday `round + 1`. -/
theorem mkFirstHalfMatch_matchday (tid : String) (as_ : List Assignment)
    (uo : Bool) (r i : Nat) (p1 p2 : String) :
    (mkFirstHalfMatch tid as_ uo r i p1 p2).matchday = r + 1 := rfl

/-- Characterisation of membership in one generated round. -/
theorem mem_roundMatches {tid : String} {as_ : List Assignment} {uo : Bool}
    {fp : List String} {r : Nat} {m : Match} :
    m ∈ roundMatches tid as_ uo fp r ↔
      ∃ i < fp.length / 2,
        ((rotAt fp r).getD i "" ≠ "GHOST" ∧
         (rotAt fp r).getD (fp.length - 1 - i) "" ≠ "GHOST") ∧
        m = mkFirstHalfMatch tid as_ uo r i ((rotAt fp r).getD i "")
              ((rotAt fp r).getD (fp.length - 1 - i) "") := by
  simp only [roundMatches, List.mem_filterMap, List.mem_range]
  constructor
  · rintro ⟨i, hi, hfi⟩
    by_cases h : (rotAt fp r).getD i "" ≠ "GHOST" ∧
        (rotAt fp r).getD (fp.length - 1 - i) "" ≠ "GHOST"
    · rw [if_pos h] at hfi
      exact ⟨i, hi, h, (Option.some.injEq _ _ ▸ hfi).symm⟩
    · rw [if_neg h] at hfi
      cases hfi
  · rintro ⟨i, hi, h, rfl⟩
    exact ⟨i, hi, by rw [if_pos h]⟩

/-- Every match of the generated fixture list is either a first-leg slot
match or the second-leg image of one. -/
theorem mem_generateFixtures {tid : String} {ps : List String}
    {as_ : List Assignment} {uo : Bool} {m : Match} :
    m ∈ generateFixturesAlgorithm tid ps as_ uo ↔
      (∃ r < (if ps.length % 2 != 0 then ps ++ ["GHOST"] else ps).length - 1,
        m ∈ roundMatches tid as_ uo
          (if ps.length % 2 != 0 then ps ++ ["GHOST"] else ps) r) ∨
      (∃ m0, (∃ r < (if ps.length % 2 != 0 then ps ++ ["GHOST"] else ps).length - 1,
          m0 ∈ roundMatches tid as_ uo
            (if ps.length % 2 != 0 then ps ++ ["GHOST"] else ps) r) ∧
        m = secondHalfMatch
          ((if ps.length % 2 != 0 then ps ++ ["GHOST"] else ps).length - 1) m0) := by
  simp only [generateFixturesAlgorithm, List.mem_append, List.mem_map, List.mem_flatMap,
    List.mem_range]
  constructor
  · rintro (⟨r, hr, hm⟩ | ⟨m0, ⟨r, hr, hm0⟩, rfl⟩)
    · exact Or.inl ⟨r, hr, hm⟩
    · exact Or.inr ⟨m0, ⟨r, hr, hm0⟩, rfl⟩
  · rintro (⟨r, hr, hm⟩ | ⟨m0, ⟨r, hr, hm0⟩, rfl⟩)
    · exact Or.inl ⟨r, hr, hm⟩
    · exact Or.inr ⟨m0, ⟨r, hr, hm0⟩, rfl⟩

/-- No generated match mentions the GHOST padding sentinel in either player
slot (any slot pairing touching it is discarded before emission). -/
theorem generateFixtures_no_ghost (tid : String) (ps : List String)
    (as_ : List Assignment) (uo : Bool) :
    ∀ m ∈ generateFixturesAlgorithm tid ps as_ uo,
      m.playerAId ≠ "GHOST" ∧ m.playerBId ≠ "GHOST" := by
  intro m hm
  rw [mem_generateFixtures] at hm
  rcases hm with ⟨r, _, hm⟩ | ⟨m0, ⟨r, _, hm0⟩, rfl⟩
  · rw [mem_roundMatches] at hm
    obtain ⟨i, _, ⟨h1, h2⟩, rfl⟩ := hm
    rw [mkFirstHalfMatch_playerA, mkFirstHalfMatch_playerB]
    constructor <;> split <;> assumption
  · rw [mem_roundMatches] at hm0
    obtain ⟨i, _, ⟨h1, h2⟩, rfl⟩ := hm0
    simp only [secondHalfMatch]
    rw [mkFirstHalfMatch_playerA, mkFirstHalfMatch_playerB]
    constructor <;> split <;> assumption

/-! ### C7 — odd rosters never leak the bye sentinel -/

/-- C7: for an odd-sized roster, no emitted match references the `'GHOST'`
bye sentinel in either player slot. -/
theorem odd_roster_no_ghost (tid : String) (ps : List String)
    (as_ : List Assignment) (uo : Bool) (_hodd : ps.length % 2 = 1) :
    ∀ m ∈ generateFixturesAlgorithm tid ps as_ uo,
      m.playerAId ≠ "GHOST" ∧ m.playerBId ≠ "GHOST" :=
  generateFixtures_no_ghost tid ps as_ uo

/-- Witness for C7 on the odd roster `["A", "B", "C"]`. -/
theorem odd_roster_no_ghost_witness :
    (["A", "B", "C"] : List String).length % 2 = 1 ∧
    ∀ m ∈ generateFixturesAlgorithm "t" ["A", "B", "C"] [] true,
      m.playerAId ≠ "GHOST" ∧ m.playerBId ≠ "GHOST" :=
  ⟨by decide, odd_roster_no_ghost "t" ["A", "B", "C"] [] true (by decide)⟩

/-! ### C8 — home/away swap parity inside a first-leg round -/

/-- C8: for every first-leg round `r` and pair index `i` whose slot is
emitted (neither side is the bye sentinel), the generated fixture list
contains a matchday-`(r+1)` match pairing the slot's two rotation entries,
with the order swapped exactly when `(r + i)` is even: home is the far
entry `rotation[n-1-i]` when `(r + i) % 2 = 0` and the near entry
`rotation[i]` otherwise. -/
theorem swap_parity_spec (tid : String) (ps : List String)
    (as_ : List Assignment) (uo : Bool) (fp : List String) (r i : Nat)
    (hfp : fp = if ps.length % 2 != 0 then ps ++ ["GHOST"] else ps)
    (hr : r < fp.length - 1) (hi : i < fp.length / 2)
    (h1 : (rotAt fp r).getD i "" ≠ "GHOST")
    (h2 : (rotAt fp r).getD (fp.length - 1 - i) "" ≠ "GHOST") :
    ∃ m ∈ generateFixturesAlgorithm tid ps as_ uo,
      m.matchday = r + 1 ∧
      ((r + i) % 2 = 0 →
        m.playerAId = (rotAt fp r).getD (fp.length - 1 - i) "" ∧
        m.playerBId = (rotAt fp r).getD i "") ∧
      ((r + i) % 2 ≠ 0 →
        m.playerAId = (rotAt fp r).getD i "" ∧
        m.playerBId = (rotAt fp r).getD (fp.length - 1 - i) "") := by
  subst hfp
  refine ⟨_, mem_generateFixtures.mpr (Or.inl ⟨r, hr, mem_roundMatches.mpr
    ⟨i, hi, ⟨h1, h2⟩, rfl⟩⟩), mkFirstHalfMatch_matchday .., ?_, ?_⟩
  · intro hpar
    rw [mkFirstHalfMatch_playerA, mkFirstHalfMatch_playerB, if_pos hpar, if_pos hpar]
    exact ⟨rfl, rfl⟩
  · intro hpar
    rw [mkFirstHalfMatch_playerA, mkFirstHalfMatch_playerB, if_neg hpar, if_neg hpar]
    exact ⟨rfl, rfl⟩

/-- Witness for C8: roster `["A", "B", "C", "D"]`, round 0.  Pair index 0 has
even parity (sides swapped), pair index 1 has odd parity (sides kept). -/
theorem swap_parity_spec_witness :
    (∃ m ∈ generateFixturesAlgorithm "t" ["A", "B", "C", "D"] [] true,
      m.matchday = 1 ∧
      ((0 + 0) % 2 = 0 →
        m.playerAId = (rotAt ["A", "B", "C", "D"] 0).getD (4 - 1 - 0) "" ∧
        m.playerBId = (rotAt ["A", "B", "C", "D"] 0).getD 0 "") ∧
      ((0 + 0) % 2 ≠ 0 →
        m.playerAId = (rotAt ["A", "B", "C", "D"] 0).getD 0 "" ∧
        m.playerBId = (rotAt ["A", "B", "C", "D"] 0).getD (4 - 1 - 0) "")) := by
  have h := swap_parity_spec "t" ["A", "B", "C", "D"] [] true
      ["A", "B", "C", "D"] 0 0 (by decide) (by decide) (by decide)
      (by decide) (by decide)
  simpa using h

/-! ### C5 — setResult; undoResult round-trip and standings exclusion -/

/-- `findIdx?` is unchanged by an in-place rewrite that preserves the
predicate at every element. -/
theorem findIdx?_modify_invariant {α : Type} {p : α → Bool} {l : List α}
    {i j : Nat} {f : α → α} (hp : ∀ a, p (f a) = p a)
    (hi : l.findIdx? p = some i) : (l.modify f j).findIdx? p = some i := by
  rw [List.findIdx?_eq_some_iff_getElem] at hi ⊢
  obtain ⟨hlen, hpi, hmin⟩ := hi
  have hlen' : i < (l.modify f j).length := by simpa using hlen
  have key : ∀ k (hk : k < l.length),
      (l.modify f j).get ⟨k, by simpa using hk⟩ = if j = k then f (l.get ⟨k, hk⟩) else l.get ⟨k, hk⟩ := by
    intro k hk
    have hk2 : k < (l.modify f j).length := by simpa using hk
    have h := List.getElem?_modify f j l k
    rw [List.getElem?_eq_getElem hk, List.getElem?_eq_getElem hk2] at h
    simpa using h
  refine ⟨hlen', ?_, ?_⟩
  · have hkey := key i hlen
    simp only [List.get_eq_getElem] at hkey
    rw [hkey]
    by_cases hji : j = i
    · rw [if_pos hji, hp]; exact hpi
    · rw [if_neg hji]; exact hpi
  · intro k hk
    have hkl : k < l.length := Nat.lt_trans hk hlen
    have hkey := key k hkl
    simp only [List.get_eq_getElem] at hkey
    rw [hkey]
    by_cases hjk : j = k
    · rw [if_pos hjk, hp]; exact hmin k hk
    · rw [if_neg hjk]; exact hmin k hk

/-- The standings fold only sees completed matches: a list whose `i`-th match
is incomplete yields the same table as the list with that match removed. -/
theorem calculateStandings_skip_incomplete (ps : List String) (l : List Match)
    (users : List User) (asg : List Assignment) (teams : List GlobalTeam)
    (uo : Bool) (i : Nat) (h : i < l.length)
    (hc : l[i].isCompleted = false) :
    calculateStandingsLogic ps l users asg teams uo
      = calculateStandingsLogic ps (l.eraseIdx i) users asg teams uo := by
  have hfilter : l.filter (fun m => m.isCompleted)
      = (l.eraseIdx i).filter (fun m => m.isCompleted) := by
    conv_lhs => rw [← List.take_append_drop i l]
    rw [List.eraseIdx_eq_take_drop_succ, List.filter_append, List.filter_append,
      List.drop_eq_getElem_cons h, List.filter_cons]
    simp [hc]
  unfold calculateStandingsLogic
  rw [hfilter]

/-- C5: recording a valid result and then undoing it (first implementation)
leaves the match at its index with `completed = false`, and a standings
computation on the resulting store coincides with the standings computed
with that match removed altogether — the match is excluded from
aggregation. -/
theorem setResult_undo_roundtrip (st : DBState) (id : String) (i : Nat)
    (qa qb : ℚ)
    (hi : st.matches'.findIdx? (fun m => m.id == id) = some i)
    (hv : ¬(qa < 0 ∨ qb < 0 ∨ qa.den ≠ 1 ∨ qb.den ≠ 1)) :
    ∃ st1 st2,
      DatabaseService.updateMatch st id (JSNum.val qa) (JSNum.val qb) = .ok st1 ∧
      DatabaseService.undoMatchResult st1 id = .ok st2 ∧
      (∃ h : i < st2.matches'.length,
        st2.matches'[i].isCompleted = false ∧ st2.matches'[i].id = id) ∧
      ∀ ps users asg teams uo,
        calculateStandingsLogic ps st2.matches' users asg teams uo
          = calculateStandingsLogic ps (st2.matches'.eraseIdx i) users asg teams uo := by
  have hset : DatabaseService.updateMatch st id (JSNum.val qa) (JSNum.val qb)
      = .ok { st with matches' := st.matches'.modify (fun m => { m with scoreA := some qa, scoreB := some qb, isCompleted := true }) i } := by
    simp only [DatabaseService.updateMatch]
    rw [if_neg hv, hi]
  have hi1 : (st.matches'.modify (fun m => { m with scoreA := some qa, scoreB := some qb, isCompleted := true }) i).findIdx? (fun m => m.id == id) = some i :=
    findIdx?_modify_invariant (fun a => rfl) hi
  have hundo : DatabaseService.undoMatchResult { st with matches' := st.matches'.modify (fun m => { m with scoreA := some qa, scoreB := some qb, isCompleted := true }) i } id
      = .ok { st with matches' := (st.matches'.modify (fun m => { m with scoreA := some qa, scoreB := some qb, isCompleted := true }) i).modify (fun m => { m with isCompleted := false }) i } := by
    unfold DatabaseService.undoMatchResult
    rw [hi1]
  have hlen0 : i < st.matches'.length := by
    rw [List.findIdx?_eq_some_iff_getElem] at hi
    exact hi.1
  refine ⟨_, _, hset, hundo, ⟨by simpa using hlen0, ?_, ?_⟩, ?_⟩
  · -- completed = false at index i
    have h2 := List.getElem?_modify (fun m : Match => { m with isCompleted := false }) i
      (st.matches'.modify (fun m => { m with scoreA := some qa, scoreB := some qb, isCompleted := true }) i) i
    have hl1 : i < (st.matches'.modify (fun m => { m with scoreA := some qa, scoreB := some qb, isCompleted := true }) i).length := by
      simpa using hlen0
    have hl2 : i < ((st.matches'.modify (fun m => { m with scoreA := some qa, scoreB := some qb, isCompleted := true }) i).modify (fun m => { m with isCompleted := false }) i).length := by
      simpa using hlen0
    rw [List.getElem?_eq_getElem hl1, List.getElem?_eq_getElem hl2] at h2
    simp only [Option.map_eq_map, Option.map_some, Option.some_inj, if_pos rfl] at h2
    simp [h2]
  · -- the id at index i is preserved
    have h2 := List.getElem?_modify (fun m : Match => { m with isCompleted := false }) i
      (st.matches'.modify (fun m => { m with scoreA := some qa, scoreB := some qb, isCompleted := true }) i) i
    have h3 := List.getElem?_modify (fun m : Match => { m with scoreA := some qa, scoreB := some qb, isCompleted := true }) i st.matches' i
    have hl1 : i < (st.matches'.modify (fun m => { m with scoreA := some qa, scoreB := some qb, isCompleted := true }) i).length := by
      simpa using hlen0
    have hl2 : i < ((st.matches'.modify (fun m => { m with scoreA := some qa, scoreB := some qb, isCompleted := true }) i).modify (fun m => { m with isCompleted := false }) i).length := by
      simpa using hlen0
    rw [List.getElem?_eq_getElem hl1, List.getElem?_eq_getElem hl2] at h2
    rw [List.getElem?_eq_getElem hlen0, List.getElem?_eq_getElem hl1] at h3
    simp only [Option.map_eq_map, Option.map_some, Option.some_inj, if_pos rfl] at h2 h3
    rw [List.findIdx?_eq_some_iff_getElem] at hi
    have hid : st.matches'[i].id = id := by simpa using hi.2.1
    simp [h2, h3, hid]
  · -- standings exclude the now-incomplete match
    intro ps users asg teams uo
    refine calculateStandings_skip_incomplete ps _ users asg teams uo i (by simpa using hlen0) ?_
    have h2 := List.getElem?_modify (fun m : Match => { m with isCompleted := false }) i
      (st.matches'.modify (fun m => { m with scoreA := some qa, scoreB := some qb, isCompleted := true }) i) i
    have hl1 : i < (st.matches'.modify (fun m => { m with scoreA := some qa, scoreB := some qb, isCompleted := true }) i).length := by
      simpa using hlen0
    have hl2 : i < ((st.matches'.modify (fun m => { m with scoreA := some qa, scoreB := some qb, isCompleted := true }) i).modify (fun m => { m with isCompleted := false }) i).length := by
      simpa using hlen0
    rw [List.getElem?_eq_getElem hl1, List.getElem?_eq_getElem hl2] at h2
    simp only [Option.map_eq_map, Option.map_some, Option.some_inj, if_pos rfl] at h2
    simp [h2]

/-- Witness for C5 at the concrete store `stFin`, match `"m1"` (index 0),
scores 2:2. -/
theorem setResult_undo_roundtrip_witness :
    stFin.matches'.findIdx? (fun m => m.id == "m1") = some 0 ∧
    ∃ st1 st2,
      DatabaseService.updateMatch stFin "m1" (JSNum.val 2) (JSNum.val 2) = .ok st1 ∧
      DatabaseService.undoMatchResult st1 "m1" = .ok st2 ∧
      (∃ h : 0 < st2.matches'.length,
        st2.matches'[0].isCompleted = false ∧ st2.matches'[0].id = "m1") ∧
      ∀ ps users asg teams uo,
        calculateStandingsLogic ps st2.matches' users asg teams uo
          = calculateStandingsLogic ps (st2.matches'.eraseIdx 0) users asg teams uo :=
  ⟨by decide, setResult_undo_roundtrip stFin "m1" 0 2 2 (by decide) (by decide)⟩

/-- Witness for C2 at the concrete store `stFin`: a negative score is
rejected with the validation message, an unknown id with the not-found
message, and the second implementation accepts a negative score on the
Finished tournament's match. -/
theorem updateMatch_validation_no_lock_witness :
    DatabaseService.updateMatch stFin "m1" (JSNum.val (-1)) (JSNum.val 0)
      = .error "Scores must be non-negative integers." ∧
    DatabaseService.updateMatch stFin "nope" (JSNum.val 1) (JSNum.val 1)
      = .error "Match not found." ∧
    exceptOk (DatabaseService2.updateMatch stFin "m1" (-1) 0) = true := by
  refine ⟨?_, ?_, ?_⟩
  · exact (updateMatch_validation_no_lock stFin "m1").2.2.1 (-1) 0 (by norm_num)
  · exact (updateMatch_validation_no_lock stFin "nope").2.2.2.1 1 1 (by decide)
      (by norm_num)
  · exact (updateMatch_validation_no_lock stFin "m1").2.2.2.2.2.1 (-1) 0
      ⟨mFin, by decide, rfl⟩

/-! ### C6 — order independence and zero rows of the standings calculator -/

/-- The additive per-row contribution of one match. -/
structure StatDelta where
  p : Nat
  w : Nat
  d : Nat
  l : Nat
  gf : ℚ
  ga : ℚ
  pts : Nat
deriving DecidableEq, Repr

/-- Componentwise addition of a contribution onto a row. -/
def applyBump (s : StandingStat) (x : StatDelta) : StandingStat :=
  { s with p := s.p + x.p, w := s.w + x.w, d := s.d + x.d, l := s.l + x.l,
           gf := s.gf + x.gf, ga := s.ga + x.ga, pts := s.pts + x.pts }

/-- The zero contribution. -/
def zeroDelta : StatDelta :=
  { p := 0, w := 0, d := 0, l := 0, gf := 0, ga := 0, pts := 0 }

/-- The contribution of match `m` to the row keyed `k` (both sides
accumulate when `k` occupies both slots, as the aliased JavaScript mutations
would). -/
def deltaOf (k : String) (m : Match) : StatDelta :=
  let a := m.scoreA.getD 0
  let b := m.scoreB.getD 0
  let dA : StatDelta :=
    if k = m.playerAId then
      { p := 1, gf := a, ga := b, w := if a > b then 1 else 0,
        l := if a < b then 1 else 0, d := if a = b then 1 else 0,
        pts := if a > b then 3 else if a = b then 1 else 0 }
    else zeroDelta
  let dB : StatDelta :=
    if k = m.playerBId then
      { p := 1, gf := b, ga := a, w := if b > a then 1 else 0,
        l := if b < a then 1 else 0, d := if a = b then 1 else 0,
        pts := if b > a then 3 else if a = b then 1 else 0 }
    else zeroDelta
  { p := dA.p + dB.p, w := dA.w + dB.w, d := dA.d + dB.d, l := dA.l + dB.l,
    gf := dA.gf + dB.gf, ga := dA.ga + dB.ga, pts := dA.pts + dB.pts }

/-- `matchDelta` is the componentwise addition of a contribution that does
not depend on the row. -/
theorem matchDelta_eq_applyBump (k : String) (m : Match) (s : StandingStat) :
    matchDelta k m s = applyBump s (deltaOf k m) := by
  cases s
  simp only [matchDelta, deltaOf, applyBump, zeroDelta]
  split_ifs <;>
    (simp only [StandingStat.mk.injEq]; and_intros) <;> first | rfl | omega | ring

/-- Componentwise additions commute. -/
theorem applyBump_comm (s : StandingStat) (d1 d2 : StatDelta) :
    applyBump (applyBump s d1) d2 = applyBump (applyBump s d2) d1 := by
  cases s
  simp only [applyBump, StandingStat.mk.injEq]
  and_intros <;> first | rfl | omega | ring

/-- Match contributions to a single row commute. -/
theorem matchDelta_comm (k : String) (m1 m2 : Match) (s : StandingStat) :
    matchDelta k m2 (matchDelta k m1 s) = matchDelta k m1 (matchDelta k m2 s) := by
  rw [matchDelta_eq_applyBump, matchDelta_eq_applyBump, matchDelta_eq_applyBump,
    matchDelta_eq_applyBump, applyBump_comm]

/-- Folding a match never adds or removes record keys. -/
theorem recHas_applyMatch (acc : List (String × StandingStat)) (m : Match)
    (k : String) : recHas (applyMatch acc m) k = recHas acc k := by
  unfold applyMatch
  split
  · unfold recHas
    rw [List.any_map]
    rfl
  · rfl

/-- When both players are present, folding a match is the pointwise bump. -/
theorem applyMatch_of_has {acc : List (String × StandingStat)} {m : Match}
    (h : (recHas acc m.playerAId && recHas acc m.playerBId) = true) :
    applyMatch acc m = acc.map (fun e => (e.1, matchDelta e.1 m e.2)) := by
  unfold applyMatch
  rw [if_pos h]

/-- When a player is missing, folding a match is the identity. -/
theorem applyMatch_of_not_has {acc : List (String × StandingStat)} {m : Match}
    (h : ¬ (recHas acc m.playerAId && recHas acc m.playerBId) = true) :
    applyMatch acc m = acc := by
  unfold applyMatch
  rw [if_neg h]

/-- Folding two matches commutes (right commutativity of the standings
fold). -/
theorem applyMatch_comm (acc : List (String × StandingStat)) (m1 m2 : Match) :
    applyMatch (applyMatch acc m1) m2 = applyMatch (applyMatch acc m2) m1 := by
  by_cases h1 : (recHas acc m1.playerAId && recHas acc m1.playerBId) = true
  · by_cases h2 : (recHas acc m2.playerAId && recHas acc m2.playerBId) = true
    · have h2' : (recHas (applyMatch acc m1) m2.playerAId
          && recHas (applyMatch acc m1) m2.playerBId) = true := by
        rw [recHas_applyMatch, recHas_applyMatch]; exact h2
      have h1' : (recHas (applyMatch acc m2) m1.playerAId
          && recHas (applyMatch acc m2) m1.playerBId) = true := by
        rw [recHas_applyMatch, recHas_applyMatch]; exact h1
      rw [applyMatch_of_has h2', applyMatch_of_has h1, applyMatch_of_has h1',
        applyMatch_of_has h2, List.map_map, List.map_map]
      apply List.map_congr_left
      intro e _
      simp only [Function.comp_apply]
      rw [matchDelta_comm]
    · have h2' : ¬ (recHas (applyMatch acc m1) m2.playerAId
          && recHas (applyMatch acc m1) m2.playerBId) = true := by
        rw [recHas_applyMatch, recHas_applyMatch]; exact h2
      rw [applyMatch_of_not_has h2', applyMatch_of_not_has h2]
  · by_cases h2 : (recHas acc m2.playerAId && recHas acc m2.playerBId) = true
    · have h1' : ¬ (recHas (applyMatch acc m2) m1.playerAId
          && recHas (applyMatch acc m2) m1.playerBId) = true := by
        rw [recHas_applyMatch, recHas_applyMatch]; exact h1
      rw [applyMatch_of_not_has h1, applyMatch_of_not_has h1']
    · have h1' : ¬ (recHas (applyMatch acc m2) m1.playerAId
          && recHas (applyMatch acc m2) m1.playerBId) = true := by
        rw [recHas_applyMatch, recHas_applyMatch]; exact h1
      have h2' : ¬ (recHas (applyMatch acc m1) m2.playerAId
          && recHas (applyMatch acc m1) m2.playerBId) = true := by
        rw [recHas_applyMatch, recHas_applyMatch]; exact h2
      rw [applyMatch_of_not_has h2', applyMatch_of_not_has h1,
        applyMatch_of_not_has h1', applyMatch_of_not_has h2]

/-- An entry of an updated record is an old entry or the written pair. -/
theorem recSet_entries : ∀ (acc : List (String × StandingStat)) (k : String)
    (v : StandingStat) (e : String × StandingStat),
    e ∈ recSet acc k v → e ∈ acc ∨ e = (k, v)
  | [], _, _, e, he => Or.inr (by simpa [recSet] using he)
  | (k', v') :: rest, k, v, e, he => by
    unfold recSet at he
    by_cases h : k' = k
    · rw [if_pos h] at he
      rcases List.mem_cons.mp he with h1 | h1
      · exact Or.inr (by rw [h1, h])
      · exact Or.inl (List.mem_cons_of_mem _ h1)
    · rw [if_neg h] at he
      rcases List.mem_cons.mp he with h1 | h1
      · exact Or.inl (h1 ▸ List.mem_cons_self _ _)
      · rcases recSet_entries rest k v e h1 with h2 | h2
        · exact Or.inl (List.mem_cons_of_mem _ h2)
        · exact Or.inr h2

/-- Key presence after a record write. -/
theorem recHas_recSet_iff {acc : List (String × StandingStat)} {k : String}
    {v : StandingStat} {u : String} :
    recHas (recSet acc k v) u = true ↔ (u = k ∨ recHas acc u = true) := by
  induction acc with
  | nil =>
    simp only [recSet, recHas, List.any_cons, List.any_nil, Bool.or_false,
      List.any_nil, beq_iff_eq]
    constructor
    · intro h; exact Or.inl h.symm
    · rintro (h | h)
      · exact h.symm
      · cases h
  | cons hd tl ih =>
    obtain ⟨k', v'⟩ := hd
    unfold recSet
    by_cases h : k' = k
    · subst h
      rw [if_pos rfl]
      simp only [recHas, List.any_cons, Bool.or_eq_true, beq_iff_eq] at ih ⊢
      tauto
    · rw [if_neg h]
      simp only [recHas, List.any_cons, Bool.or_eq_true, beq_iff_eq] at ih ⊢
      rw [ih]
      tauto

/-- Every entry produced by the roster initialisation maps its key to the
all-zero row. -/
theorem init_entries_sound (users : List User) : ∀ (ps : List String)
    (acc : List (String × StandingStat)),
    (∀ e ∈ acc, e.2 = initStat users e.1) →
    ∀ e ∈ ps.foldl (fun a uid => recSet a uid (initStat users uid)) acc,
      e.2 = initStat users e.1 := by
  intro ps
  induction ps with
  | nil => intro acc h e he; exact h e he
  | cons p ps ih =>
    intro acc h e he
    refine ih _ ?_ e he
    intro e' he'
    rcases recSet_entries acc p (initStat users p) e' he' with h1 | h1
    · exact h e' h1
    · rw [h1]

/-- Every roster member has a key in the initialised record. -/
theorem init_recHas (users : List User) : ∀ (ps : List String)
    (acc : List (String × StandingStat)) (u : String),
    u ∈ ps ∨ recHas acc u = true →
    recHas (ps.foldl (fun a uid => recSet a uid (initStat users uid)) acc) u
      = true := by
  intro ps
  induction ps with
  | nil =>
    intro acc u h
    rcases h with h | h
    · cases h
    · exact h
  | cons p ps ih =>
    intro acc u h
    apply ih
    rcases h with h | h
    · rcases List.mem_cons.mp h with rfl | h2
      · right; exact recHas_recSet_iff.mpr (Or.inl rfl)
      · left; exact h2
    · right; exact recHas_recSet_iff.mpr (Or.inr h)

/-- A match not involving `k` leaves the row keyed `k` unchanged. -/
theorem matchDelta_noop {k : String} {m : Match} (hA : k ≠ m.playerAId)
    (hB : k ≠ m.playerBId) (s : StandingStat) : matchDelta k m s = s := by
  simp [matchDelta, hA, hB]

/-- A row of a participant who appears in no folded match survives the whole
fold untouched. -/
theorem fold_untouched (u : String) (v : StandingStat) :
    ∀ (l : List Match) (acc : List (String × StandingStat)),
    (u, v) ∈ acc →
    (∀ m ∈ l, m.playerAId ≠ u ∧ m.playerBId ≠ u) →
    (u, v) ∈ l.foldl applyMatch acc := by
  intro l
  induction l with
  | nil => intro acc h _; exact h
  | cons m l ih =>
    intro acc h hl
    apply ih
    · unfold applyMatch
      split
      · refine List.mem_map.mpr ⟨(u, v), h, ?_⟩
        have h1 := (hl m (List.mem_cons_self ..)).1
        have h2 := (hl m (List.mem_cons_self ..)).2
        simp only []
        rw [matchDelta_noop (Ne.symm h1) (Ne.symm h2)]
      · exact h
    · intro m' hm'
      exact hl m' (List.mem_cons_of_mem _ hm')

/-- C6: the standings calculator is order independent — permuting the match
list yields the identical ranked table — and every roster member untouched
by any completed match still appears in the table with all-zero counters. -/
theorem standings_perm_and_zero_rows (ps : List String) (l1 l2 : List Match)
    (users : List User) (asg : List Assignment) (teams : List GlobalTeam)
    (uo : Bool) (hperm : l1.Perm l2) :
    calculateStandingsLogic ps l1 users asg teams uo
      = calculateStandingsLogic ps l2 users asg teams uo ∧
    (∀ u ∈ ps,
      (∀ m ∈ l1, m.isCompleted = true → m.playerAId ≠ u ∧ m.playerBId ≠ u) →
      ∃ row ∈ calculateStandingsLogic ps l1 users asg teams uo,
        row.id = u ∧ row.p = 0 ∧ row.w = 0 ∧ row.d = 0 ∧ row.l = 0 ∧
        row.gf = 0 ∧ row.ga = 0 ∧ row.pts = 0) := by
  constructor
  · simp only [calculateStandingsLogic]
    have hp2 : (l1.filter (fun m => m.isCompleted)).Perm
        (l2.filter (fun m => m.isCompleted)) := hperm.filter _
    rw [hp2.foldl_eq' (fun x _ y _ z => applyMatch_comm z x y) _]
  · intro u hu hnone
    have hhas : recHas (ps.foldl (fun a uid => recSet a uid (initStat users uid)) []) u
        = true := init_recHas users ps [] u (Or.inl hu)
    obtain ⟨e, he, hbeq⟩ := List.any_eq_true.mp hhas
    have he1 : e.1 = u := by simpa using hbeq
    have hev : e.2 = initStat users e.1 :=
      init_entries_sound users ps [] (by simp) e he
    have hmem0 : (u, initStat users u)
        ∈ ps.foldl (fun a uid => recSet a uid (initStat users uid)) [] := by
      have he2 : e = (u, initStat users u) := by
        obtain ⟨e1, e2⟩ := e
        simp only at he1 hev
        rw [he1] at hev ⊢
        rw [hev]
      rwa [he2] at he
    have hmem1 : (u, initStat users u)
        ∈ (l1.filter (fun m => m.isCompleted)).foldl applyMatch
            (ps.foldl (fun a uid => recSet a uid (initStat users uid)) []) := by
      refine fold_untouched u _ _ _ hmem0 ?_
      intro m hm
      have hm2 := List.mem_filter.mp hm
      exact hnone m hm2.1 (by simpa using hm2.2)
    refine ⟨initStat users u, ?_, rfl, rfl, rfl, rfl, rfl, rfl, rfl, rfl⟩
    simp only [calculateStandingsLogic]
    rw [List.mem_mergeSort]
    exact List.mem_map.mpr ⟨(u, initStat users u), hmem1, rfl⟩

/-- A completed 2:1 match between `u1` and `u2`. -/
def mW1 : Match :=
  { id := "w1", tournamentId := "t", matchday := 1, playerAId := "u1",
    playerBId := "u2", teamAId := none, teamBId := none,
    scoreA := some 2, scoreB := some 1, isCompleted := true }

/-- A completed 0:0 match between `u2` and `u1`. -/
def mW2 : Match :=
  { id := "w2", tournamentId := "t", matchday := 2, playerAId := "u2",
    playerBId := "u1", teamAId := none, teamBId := none,
    scoreA := some 0, scoreB := some 0, isCompleted := true }

/-- Witness for C6 on a three-member roster whose third member plays no
match, with the two completed matches listed in both orders. -/
theorem standings_perm_and_zero_rows_witness :
    ([mW1, mW2] : List Match).Perm [mW2, mW1] ∧
    (calculateStandingsLogic ["u1", "u2", "u3"] [mW1, mW2]
        [{ id := "u1", username := "alice" }] [] [] true
      = calculateStandingsLogic ["u1", "u2", "u3"] [mW2, mW1]
        [{ id := "u1", username := "alice" }] [] [] true ∧
    (∀ u ∈ (["u1", "u2", "u3"] : List String),
      (∀ m ∈ ([mW1, mW2] : List Match), m.isCompleted = true →
        m.playerAId ≠ u ∧ m.playerBId ≠ u) →
      ∃ row ∈ calculateStandingsLogic ["u1", "u2", "u3"] [mW1, mW2]
          [{ id := "u1", username := "alice" }] [] [] true,
        row.id = u ∧ row.p = 0 ∧ row.w = 0 ∧ row.d = 0 ∧ row.l = 0 ∧
        row.gf = 0 ∧ row.ga = 0 ∧ row.pts = 0)) :=
  ⟨List.Perm.swap mW2 mW1 [],
   standings_perm_and_zero_rows ["u1", "u2", "u3"] [mW1, mW2] [mW2, mW1]
     [{ id := "u1", username := "alice" }] [] [] true
     (List.Perm.swap mW2 mW1 [])⟩

/-! ### Counting helpers for the fixture analysis -/

/-- Length of a `filterMap` as a count of emitting inputs. -/
theorem length_filterMap_eq_countP {α β : Type} (f : α → Option β)
    (l : List α) : (l.filterMap f).length = l.countP (fun a => (f a).isSome) := by
  induction l with
  | nil => rfl
  | cons hd tl ih =>
    rw [List.filterMap_cons, List.countP_cons]
    cases h : f hd <;> simp [h, ih]

/-- Counting inside a `filterMap`. -/
theorem countP_filterMap_eq {α β : Type} (f : α → Option β) (p : β → Bool)
    (l : List α) :
    (l.filterMap f).countP p
      = l.countP (fun a => ((f a).map p).getD false) := by
  induction l with
  | nil => rfl
  | cons hd tl ih =>
    rw [List.filterMap_cons]
    cases h : f hd with
    | none => rw [List.countP_cons]; simp [h, ih]
    | some b => rw [List.countP_cons, List.countP_cons]; simp [h, ih]

/-- Counting over a `flatMap` is the sum of the inner counts. -/
theorem countP_flatMap_eq {α β : Type} (f : α → List β) (p : β → Bool) :
    ∀ l : List α, (l.flatMap f).countP p = (l.map (fun a => (f a).countP p)).sum
  | [] => rfl
  | hd :: tl => by
    rw [List.flatMap_cons, List.countP_append, List.map_cons, List.sum_cons,
      countP_flatMap_eq f p tl]

/-- A sum of scaled indicators is a scaled count. -/
theorem sum_map_ite_eq_countP {α : Type} (p : α → Bool) (c : Nat) :
    ∀ l : List α, (l.map (fun a => if p a then c else 0)).sum = c * l.countP p
  | [] => by simp
  | hd :: tl => by
    rw [List.map_cons, List.sum_cons, List.countP_cons, sum_map_ite_eq_countP p c tl]
    by_cases h : p hd = true
    · simp [h, Nat.mul_add]
      omega
    · simp [h]

/-- A sum of constants is a scaled length. -/
theorem sum_map_const {α : Type} (c : Nat) :
    ∀ l : List α, (l.map (fun _ => c)).sum = c * l.length
  | [] => by simp
  | hd :: tl => by
    rw [List.map_cons, List.sum_cons, sum_map_const c tl]
    simp [Nat.mul_add, Nat.mul_one, Nat.add_comm]

/-- A predicate with exactly one witness below `k` counts once on
`range k`. -/
theorem countP_range_eq_one {p : Nat → Bool} {k r0 : Nat} (h0 : r0 < k)
    (hp : p r0 = true) (huniq : ∀ r, r < k → p r = true → r = r0) :
    (List.range k).countP p = 1 := by
  induction k with
  | zero => omega
  | succ k ih =>
    rw [List.range_succ, List.countP_append]
    by_cases hk : r0 = k
    · subst hk
      have hz : (List.range r0).countP p = 0 := by
        rw [List.countP_eq_zero]
        intro a ha hpa
        have halt := List.mem_range.mp ha
        have := huniq a (by omega) hpa
        omega
      simp [hz, hp]
    · have hr0 : r0 < k := by omega
      have hk2 : ¬ p k = true := fun hpk => hk (huniq k (by omega) hpk).symm
      rw [ih hr0 (fun r hr hpr => huniq r (by omega) hpr)]
      simp [hk2]

/-- Counts of a predicate and its negation partition the length. -/
theorem countP_add_countP_not {α : Type} (p : α → Bool) :
    ∀ l : List α, l.countP p + l.countP (fun a => !(p a)) = l.length
  | [] => rfl
  | hd :: tl => by
    rw [List.countP_cons, List.countP_cons]
    have := countP_add_countP_not p tl
    by_cases h : p hd = true <;> simp [h] <;> omega

/-- Counting a disjunction of pointwise incompatible predicates. -/
theorem countP_or_disjoint {α : Type} (p q : α → Bool)
    (hdis : ∀ a, ¬(p a = true ∧ q a = true)) :
    ∀ l : List α,
      l.countP (fun a => p a || q a) = l.countP p + l.countP q
  | [] => rfl
  | hd :: tl => by
    rw [List.countP_cons, List.countP_cons, List.countP_cons,
      countP_or_disjoint p q hdis tl]
    by_cases h1 : p hd = true
    · have h2 : ¬ q hd = true := fun h2 => hdis hd ⟨h1, h2⟩
      simp [h1, h2]
      omega
    · by_cases h2 : q hd = true
      · simp [h1, h2]
        omega
      · simp [h1, h2]

/-! ### Closed form of the round-robin rotation -/

/-- Rotating a nonempty list one step right brings the last element to the
front. -/
theorem rotate_length_sub_one {α : Type} (l : List α) (h : l ≠ []) :
    l.rotate (l.length - 1) = l.getLast h :: l.dropLast := by
  have hlen : 0 < l.length := List.length_pos.mpr h
  rw [List.rotate_eq_drop_append_take (by omega), List.dropLast_eq_take]
  have hdrop : l.drop (l.length - 1) = [l.getLast h] := by
    rw [List.drop_eq_getElem_cons (by omega : l.length - 1 < l.length)]
    have h2 : l.length - 1 + 1 = l.length := by omega
    rw [h2, List.drop_length]
    rw [List.getLast_eq_getElem]
  rw [hdrop]
  rfl

/-- `rotStep` in terms of `List.rotate`. -/
theorem rotStep_cons {α : Type} (a : α) (t : List α) :
    rotStep (a :: t) = a :: t.rotate (t.length - 1) := by
  cases t with
  | nil => rfl
  | cons x xs =>
    have hne : x :: xs ≠ ([] : List α) := by simp
    have hg : (x :: xs).getLast? = some ((x :: xs).getLast hne) :=
      List.getLast?_eq_getLast _ hne
    simp only [rotStep, hg]
    rw [rotate_length_sub_one (x :: xs) hne]

/-- The rotation list at round `r`: the head is fixed and the tail has
rotated right `r` times. -/
theorem rotAt_cons {α : Type} (a : α) (t : List α) (r : Nat) :
    rotAt (a :: t) r = a :: t.rotate (r * (t.length - 1)) := by
  induction r with
  | zero => simp [rotAt]
  | succ r ih =>
    rw [rotAt, Function.iterate_succ_apply', ← rotAt, ih, rotStep_cons]
    rw [List.length_rotate, List.rotate_rotate]
    rw [Nat.succ_mul]

/-- Rotating the empty list does nothing. -/
theorem rotAt_nil {α : Type} (r : Nat) : rotAt ([] : List α) r = [] := by
  induction r with
  | zero => rfl
  | succ r ih => rw [rotAt, Function.iterate_succ_apply', ← rotAt, ih]; rfl

/-- The rotation preserves the length. -/
theorem rotAt_length {α : Type} (fp : List α) (r : Nat) :
    (rotAt fp r).length = fp.length := by
  cases fp with
  | nil => rw [rotAt_nil]
  | cons a t => rw [rotAt_cons]; simp

/-- The fixed head of the rotation. -/
theorem rotAt_getD_zero {α : Type} (a : α) (t : List α) (r : Nat) (d : α) :
    (rotAt (a :: t) r).getD 0 d = a := by
  rw [rotAt_cons]; rfl

/-- Entry formula for a non-head position of the rotation. -/
theorem rotAt_getD_pos {α : Type} (a : α) (t : List α) (r p : Nat) (d : α)
    (hp : 1 ≤ p) (hpn : p < (a :: t).length) :
    (rotAt (a :: t) r).getD p d
      = t.getD ((p - 1 + r * (t.length - 1)) % t.length) d := by
  rw [rotAt_cons]
  have ht : 0 < t.length := by simp at hpn; omega
  obtain ⟨q, rfl⟩ : ∃ q, p = q + 1 := ⟨p - 1, by omega⟩
  have hq : q < t.length := by simp at hpn; omega
  rw [List.getD_cons_succ]
  rw [List.getD_eq_getElem?_getD, List.getD_eq_getElem?_getD]
  rw [List.getElem?_eq_getElem (by rw [List.length_rotate]; exact hq)]
  rw [List.getElem?_eq_getElem (Nat.mod_lt _ ht)]
  rw [List.getElem_rotate]
  simp

/-- The rotation of a duplicate-free list is duplicate-free. -/
theorem rotAt_nodup {α : Type} (fp : List α) (r : Nat) (h : fp.Nodup) :
    (rotAt fp r).Nodup := by
  cases fp with
  | nil => rw [rotAt_nil]; exact h
  | cons a t =>
    rw [rotAt_cons]
    simp only [List.nodup_cons, List.mem_rotate, List.nodup_rotate]
    simpa using h

/-- `getD` at two valid indices of a duplicate-free list is injective. -/
theorem getD_inj_of_nodup {l : List String} (h : l.Nodup) {i j : Nat}
    (hi : i < l.length) (hj : j < l.length) (d : String)
    (he : l.getD i d = l.getD j d) : i = j := by
  rw [List.getD_eq_getElem?_getD, List.getElem?_eq_getElem hi,
    List.getD_eq_getElem?_getD, List.getElem?_eq_getElem hj] at he
  simp only [Option.getD_some] at he
  exact (List.Nodup.getElem_inj_iff h).mp he

/-! ### Position of a label in the rotation -/

/-- The position at round `r` of the element whose index in the original
padded list is `lab` (`mlen` is the rotating-tail length). -/
def posAt (mlen r lab : Nat) : Nat :=
  if lab = 0 then 0 else 1 + ((lab - 1 + r) % mlen)

/-- Positions stay in range. -/
theorem posAt_lt {mlen r lab : Nat} (hm : 0 < mlen) (_hl : lab < mlen + 1) :
    posAt mlen r lab < mlen + 1 := by
  unfold posAt
  split
  · omega
  · have := Nat.mod_lt (lab - 1 + r) hm
    omega

/-- The rotation entry at `posAt` is the original element at index `lab`. -/
theorem rotAt_getD_posAt (a : String) (t : List String) (r lab : Nat)
    (d : String) (hm : 0 < t.length) (hl : lab < t.length + 1) :
    (rotAt (a :: t) r).getD (posAt t.length r lab) d = (a :: t).getD lab d := by
  unfold posAt
  by_cases h0 : lab = 0
  · subst h0
    rw [if_pos rfl, rotAt_getD_zero]
    rfl
  · rw [if_neg h0]
    have hmod := Nat.mod_lt (lab - 1 + r) hm
    rw [rotAt_getD_pos a t r _ d (by omega) (by simp; omega)]
    have hidx : (1 + ((lab - 1 + r) % t.length) - 1 + r * (t.length - 1)) % t.length
        = lab - 1 := by
      have h1 : 1 + ((lab - 1 + r) % t.length) - 1 = (lab - 1 + r) % t.length := by
        omega
      rw [h1, Nat.mod_add_mod]
      have hx : r * t.length = r * (t.length - 1) + r := by
        conv_lhs => rw [← Nat.succ_pred_eq_of_pos hm]
        rw [Nat.mul_succ, Nat.pred_eq_sub_one]
      have h2 : lab - 1 + r + r * (t.length - 1) = lab - 1 + r * t.length := by
        omega
      rw [h2, Nat.add_mul_mod_self_right]
      exact Nat.mod_eq_of_lt (by omega)
    rw [hidx]
    obtain ⟨q, rfl⟩ : ∃ q, lab = q + 1 := ⟨lab - 1, by omega⟩
    rw [List.getD_cons_succ]
    simp

/-- Distinct labels sit at distinct positions. -/
theorem posAt_inj {mlen r lab1 lab2 : Nat} (hm : 0 < mlen)
    (h1 : lab1 < mlen + 1) (h2 : lab2 < mlen + 1)
    (he : posAt mlen r lab1 = posAt mlen r lab2) : lab1 = lab2 := by
  unfold posAt at he
  by_cases e1 : lab1 = 0 <;> by_cases e2 : lab2 = 0
  · omega
  · rw [if_pos e1, if_neg e2] at he
    omega
  · rw [if_neg e1, if_pos e2] at he
    omega
  · rw [if_neg e1, if_neg e2] at he
    have hmod : (lab1 - 1 + r) % mlen = (lab2 - 1 + r) % mlen := by omega
    have hcancel : (lab1 - 1) % mlen = (lab2 - 1) % mlen :=
      Nat.ModEq.add_right_cancel' r hmod
    rw [Nat.mod_eq_of_lt (by omega), Nat.mod_eq_of_lt (by omega)] at hcancel
    omega

/-! ### Per-round counting -/

/-- The swap rule permutes a slot's pair, so "this match is between `x` and
`y` in some order" is parity-independent. -/
theorem matchBetween_mk (x y : String) (tid : String) (as_ : List Assignment)
    (uo : Bool) (r i : Nat) (p1 p2 : String) :
    decide (((mkFirstHalfMatch tid as_ uo r i p1 p2).playerAId = x ∧
             (mkFirstHalfMatch tid as_ uo r i p1 p2).playerBId = y) ∨
            ((mkFirstHalfMatch tid as_ uo r i p1 p2).playerAId = y ∧
             (mkFirstHalfMatch tid as_ uo r i p1 p2).playerBId = x))
      = decide ((p1 = x ∧ p2 = y) ∨ (p1 = y ∧ p2 = x)) := by
  rw [decide_eq_decide]
  rw [mkFirstHalfMatch_playerA, mkFirstHalfMatch_playerB]
  by_cases hpar : (r + i) % 2 = 0
  · rw [if_pos hpar, if_pos hpar]
    tauto
  · rw [if_neg hpar, if_neg hpar]

/-- In one round, the number of emitted matches between two fixed non-GHOST
roster elements is one exactly when their rotation positions are paired
(sum to `n - 1`), and zero otherwise. -/
theorem roundMatches_countP_between (tid : String) (as_ : List Assignment)
    (uo : Bool) (a : String) (t : List String) (r : Nat)
    (heven : (t.length + 1) % 2 = 0) (hnd : (a :: t).Nodup)
    (la lb : Nat) (hla : la < t.length + 1) (hlb : lb < t.length + 1)
    (hne : la ≠ lb)
    (hgx : (a :: t).getD la "" ≠ "GHOST")
    (hgy : (a :: t).getD lb "" ≠ "GHOST") :
    (roundMatches tid as_ uo (a :: t) r).countP
        (fun mm => decide
          ((mm.playerAId = (a :: t).getD la "" ∧ mm.playerBId = (a :: t).getD lb "") ∨
           (mm.playerAId = (a :: t).getD lb "" ∧ mm.playerBId = (a :: t).getD la "")))
      = if posAt t.length r la + posAt t.length r lb = t.length then 1 else 0 := by
  have hm : 0 < t.length := by omega
  have hn : (a :: t).length = t.length + 1 := by simp
  have hrotlen : (rotAt (a :: t) r).length = t.length + 1 := by
    rw [rotAt_length, hn]
  have hrotnd : (rotAt (a :: t) r).Nodup := rotAt_nodup _ r hnd
  have hgetx := rotAt_getD_posAt a t r la "" hm hla
  have hgety := rotAt_getD_posAt a t r lb "" hm hlb
  have hpa : posAt t.length r la < t.length + 1 := posAt_lt hm hla
  have hpb : posAt t.length r lb < t.length + 1 := posAt_lt hm hlb
  have hpapb : posAt t.length r la ≠ posAt t.length r lb := by
    intro h
    exact hne (posAt_inj hm hla hlb h)
  -- characterise "holds x" positions
  have hchar : ∀ i < t.length + 1,
      ((rotAt (a :: t) r).getD i "" = (a :: t).getD la "" ↔ i = posAt t.length r la) ∧
      ((rotAt (a :: t) r).getD i "" = (a :: t).getD lb "" ↔ i = posAt t.length r lb) := by
    intro i hi
    constructor
    · constructor
      · intro h
        exact getD_inj_of_nodup hrotnd (by omega) (by omega) ""
          (by rw [h, hgetx])
      · intro h
        rw [h, hgetx]
    · constructor
      · intro h
        exact getD_inj_of_nodup hrotnd (by omega) (by omega) ""
          (by rw [h, hgety])
      · intro h
        rw [h, hgety]
  simp only [roundMatches, hn]
  rw [countP_filterMap_eq]
  have hcongr : ∀ i ∈ List.range ((t.length + 1) / 2),
      ((((fun i => if ((rotAt (a :: t) r).getD i "" ≠ "GHOST" ∧ (rotAt (a :: t) r).getD (t.length + 1 - 1 - i) "" ≠ "GHOST") then some (mkFirstHalfMatch tid as_ uo r i ((rotAt (a :: t) r).getD i "") ((rotAt (a :: t) r).getD (t.length + 1 - 1 - i) "")) else none) i).map (fun mm => decide ((mm.playerAId = (a :: t).getD la "" ∧ mm.playerBId = (a :: t).getD lb "") ∨ (mm.playerAId = (a :: t).getD lb "" ∧ mm.playerBId = (a :: t).getD la "")))).getD false = true) ↔
      (decide ((((rotAt (a :: t) r).getD i "" = (a :: t).getD la "" ∧ (rotAt (a :: t) r).getD (t.length + 1 - 1 - i) "" = (a :: t).getD lb "") ∨ ((rotAt (a :: t) r).getD i "" = (a :: t).getD lb "" ∧ (rotAt (a :: t) r).getD (t.length + 1 - 1 - i) "" = (a :: t).getD la ""))) = true) := by
    intro i _
    dsimp only
    by_cases hcond : (rotAt (a :: t) r).getD i "" ≠ "GHOST" ∧
        (rotAt (a :: t) r).getD (t.length + 1 - 1 - i) "" ≠ "GHOST"
    · rw [if_pos hcond]
      rw [Option.map_some', Option.getD_some, matchBetween_mk]
    · rw [if_neg hcond]
      simp only [Option.map_none', Option.getD_none]
      constructor
      · intro hfalse
        exact absurd hfalse (by simp)
      · intro hp
        rw [decide_eq_true_eq] at hp
        exfalso
        push_neg at hcond
        by_cases h1 : (rotAt (a :: t) r).getD i "" = "GHOST"
        · rcases hp with ⟨hx, _⟩ | ⟨hy, _⟩
          · exact hgx (by rw [← hx, h1])
          · exact hgy (by rw [← hy, h1])
        · have h2 := hcond h1
          rcases hp with ⟨_, hy⟩ | ⟨_, hx⟩
          · exact hgy (by rw [← hy, h2])
          · exact hgx (by rw [← hx, h2])
  rw [List.countP_congr hcongr]
  by_cases hsum : posAt t.length r la + posAt t.length r lb = t.length
  · rw [if_pos hsum]
    apply countP_range_eq_one
      (show min (posAt t.length r la) (posAt t.length r lb) < (t.length + 1) / 2 by omega)
    · rw [decide_eq_true_eq]
      by_cases hmin : posAt t.length r la < posAt t.length r lb
      · have h1 : min (posAt t.length r la) (posAt t.length r lb)
            = posAt t.length r la := by omega
        have h2 : t.length + 1 - 1 - posAt t.length r la
            = posAt t.length r lb := by omega
        rw [h1, h2, hgetx, hgety]
        exact Or.inl ⟨rfl, rfl⟩
      · have h1 : min (posAt t.length r la) (posAt t.length r lb)
            = posAt t.length r lb := by omega
        have h2 : t.length + 1 - 1 - posAt t.length r lb
            = posAt t.length r la := by omega
        rw [h1, h2, hgetx, hgety]
        exact Or.inr ⟨rfl, rfl⟩
    · intro i hi hpi
      rw [decide_eq_true_eq] at hpi
      have hi2 : i < t.length + 1 := by omega
      have hi3 : t.length + 1 - 1 - i < t.length + 1 := by omega
      rcases hpi with ⟨hx, hy⟩ | ⟨hy, hx⟩
      · have e1 := ((hchar i hi2).1).mp hx
        have e2 := ((hchar _ hi3).2).mp hy
        omega
      · have e1 := ((hchar i hi2).2).mp hy
        have e2 := ((hchar _ hi3).1).mp hx
        omega
  · rw [if_neg hsum]
    rw [List.countP_eq_zero]
    intro i hi hpi
    rw [List.mem_range] at hi
    rw [decide_eq_true_eq] at hpi
    have hi2 : i < t.length + 1 := by omega
    have hi3 : t.length + 1 - 1 - i < t.length + 1 := by omega
    rcases hpi with ⟨hx, hy⟩ | ⟨hy, hx⟩
    · have e1 := ((hchar i hi2).1).mp hx
      have e2 := ((hchar _ hi3).2).mp hy
      omega
    · have e1 := ((hchar i hi2).2).mp hy
      have e2 := ((hchar _ hi3).1).mp hx
      omega

/-- Length of a `flatMap` as a sum of inner lengths. -/
theorem length_flatMap_eq {α β : Type} (f : α → List β) :
    ∀ l : List α, (l.flatMap f).length = (l.map (fun a => (f a).length)).sum
  | [] => rfl
  | hd :: tl => by
    rw [List.flatMap_cons, List.length_append, List.map_cons, List.sum_cons,
      length_flatMap_eq f tl]

/-- Membership is invariant under the rotation. -/
theorem rotAt_mem {α : Type} (fp : List α) (r : Nat) (x : α) :
    x ∈ rotAt fp r ↔ x ∈ fp := by
  cases fp with
  | nil => rw [rotAt_nil]
  | cons a t =>
    rw [rotAt_cons]
    simp [List.mem_rotate]

/-- A `getD` at a valid index is a member. -/
theorem getD_mem_of_lt {α : Type} (l : List α) (i : Nat) (d : α)
    (hi : i < l.length) : l.getD i d ∈ l := by
  rw [List.getD_eq_getElem?_getD, List.getElem?_eq_getElem hi]
  exact List.getElem_mem hi

/-- Without the GHOST sentinel present, a round emits all `n / 2` slot
matches. -/
theorem roundMatches_length_no_ghost (tid : String) (as_ : List Assignment)
    (uo : Bool) (a : String) (t : List String) (r : Nat)
    (hg : "GHOST" ∉ (a :: t)) :
    (roundMatches tid as_ uo (a :: t) r).length = (t.length + 1) / 2 := by
  have hn : (a :: t).length = t.length + 1 := by simp
  simp only [roundMatches, hn]
  rw [length_filterMap_eq_countP]
  rw [List.countP_eq_length.mpr, List.length_range]
  intro i hi
  rw [List.mem_range] at hi
  have hi1 : i < (rotAt (a :: t) r).length := by
    rw [rotAt_length, hn]; omega
  have hi2 : t.length + 1 - 1 - i < (rotAt (a :: t) r).length := by
    rw [rotAt_length, hn]; omega
  have hm1 : (rotAt (a :: t) r).getD i "" ∈ (a :: t) :=
    (rotAt_mem _ r _).mp (getD_mem_of_lt _ i "" hi1)
  have hm2 : (rotAt (a :: t) r).getD (t.length + 1 - 1 - i) "" ∈ (a :: t) :=
    (rotAt_mem _ r _).mp (getD_mem_of_lt _ _ "" hi2)
  rw [if_pos ⟨fun h => hg (h ▸ hm1), fun h => hg (h ▸ hm2)⟩]
  rfl

/-- With the GHOST sentinel sitting at the last original index, each round
discards exactly one slot. -/
theorem roundMatches_length_with_ghost (tid : String) (as_ : List Assignment)
    (uo : Bool) (a : String) (t : List String) (r : Nat)
    (heven : (t.length + 1) % 2 = 0) (hnd : (a :: t).Nodup)
    (hlast : (a :: t).getD t.length "" = "GHOST") :
    (roundMatches tid as_ uo (a :: t) r).length = (t.length + 1) / 2 - 1 := by
  have hm : 0 < t.length := by omega
  have hn : (a :: t).length = t.length + 1 := by simp
  have hrotnd : (rotAt (a :: t) r).Nodup := rotAt_nodup _ r hnd
  have hrotlen : (rotAt (a :: t) r).length = t.length + 1 := by
    rw [rotAt_length, hn]
  have hpg : posAt t.length r t.length < t.length + 1 :=
    posAt_lt hm (by omega)
  have hpg1 : 1 ≤ posAt t.length r t.length := by
    unfold posAt
    rw [if_neg (by omega)]
    omega
  have hgetg : (rotAt (a :: t) r).getD (posAt t.length r t.length) ""
      = "GHOST" := by
    rw [rotAt_getD_posAt a t r t.length "" hm (by omega), hlast]
  have hchar : ∀ i < t.length + 1,
      ((rotAt (a :: t) r).getD i "" = "GHOST" ↔ i = posAt t.length r t.length) := by
    intro i hi
    constructor
    · intro h
      exact getD_inj_of_nodup hrotnd (by omega) (by omega) ""
        (by rw [h, hgetg])
    · intro h
      rw [h, hgetg]
  simp only [roundMatches, hn]
  rw [length_filterMap_eq_countP]
  have hfail : (List.range ((t.length + 1) / 2)).countP
      (fun i => !(if (rotAt (a :: t) r).getD i "" ≠ "GHOST" ∧ (rotAt (a :: t) r).getD (t.length + 1 - 1 - i) "" ≠ "GHOST" then some (mkFirstHalfMatch tid as_ uo r i ((rotAt (a :: t) r).getD i "") ((rotAt (a :: t) r).getD (t.length + 1 - 1 - i) "")) else none).isSome) = 1 := by
    apply countP_range_eq_one (show min (posAt t.length r t.length) (t.length + 1 - 1 - posAt t.length r t.length) < (t.length + 1) / 2 by omega)
    · dsimp only
      by_cases hmin : posAt t.length r t.length
          < t.length + 1 - 1 - posAt t.length r t.length
      · have h1 : min (posAt t.length r t.length)
            (t.length + 1 - 1 - posAt t.length r t.length)
            = posAt t.length r t.length := by omega
        rw [h1, if_neg (by push_neg; intro h; exact absurd hgetg h)]
        rfl
      · have h1 : min (posAt t.length r t.length)
            (t.length + 1 - 1 - posAt t.length r t.length)
            = t.length + 1 - 1 - posAt t.length r t.length := by omega
        have h2 : t.length + 1 - 1 - (t.length + 1 - 1 - posAt t.length r t.length)
            = posAt t.length r t.length := by omega
        rw [h1, h2, if_neg (by push_neg; intro _; exact hgetg)]
        rfl
    · intro i hi hpi
      rw [Bool.not_eq_eq_eq_not, Bool.not_true] at hpi
      have hite : ¬((rotAt (a :: t) r).getD i "" ≠ "GHOST" ∧
          (rotAt (a :: t) r).getD (t.length + 1 - 1 - i) "" ≠ "GHOST") := by
        intro hc
        rw [if_pos hc] at hpi
        exact absurd hpi (by simp)
      push_neg at hite
      by_cases h1 : (rotAt (a :: t) r).getD i "" = "GHOST"
      · have := (hchar i (by omega)).mp h1
        omega
      · have h2 := hite h1
        have := (hchar _ (by omega)).mp h2
        omega
  have htotal := countP_add_countP_not
    (fun i => (if (rotAt (a :: t) r).getD i "" ≠ "GHOST" ∧ (rotAt (a :: t) r).getD (t.length + 1 - 1 - i) "" ≠ "GHOST" then some (mkFirstHalfMatch tid as_ uo r i ((rotAt (a :: t) r).getD i "") ((rotAt (a :: t) r).getD (t.length + 1 - 1 - i) "")) else none).isSome)
    (List.range ((t.length + 1) / 2))
  rw [List.length_range] at htotal
  omega

/-- Every match of round `r` carries matchday `r + 1`. -/
theorem roundMatches_matchday (tid : String) (as_ : List Assignment)
    (uo : Bool) (fp : List String) (r : Nat) :
    ∀ mm ∈ roundMatches tid as_ uo fp r, mm.matchday = r + 1 := by
  intro mm hmm
  rw [mem_roundMatches] at hmm
  obtain ⟨i, _, _, rfl⟩ := hmm
  exact mkFirstHalfMatch_matchday ..

/-- The matchday-count of one round is its full size on its own day and
zero elsewhere. -/
theorem roundMatches_countP_matchday (tid : String) (as_ : List Assignment)
    (uo : Bool) (fp : List String) (r d : Nat) :
    (roundMatches tid as_ uo fp r).countP (fun mm => decide (mm.matchday = d))
      = if r + 1 = d then (roundMatches tid as_ uo fp r).length else 0 := by
  by_cases h : r + 1 = d
  · rw [if_pos h]
    rw [List.countP_eq_length.mpr]
    intro mm hmm
    rw [decide_eq_true_eq, roundMatches_matchday tid as_ uo fp r mm hmm]
    exact h
  · rw [if_neg h]
    rw [List.countP_eq_zero]
    intro mm hmm
    rw [decide_eq_true_eq, roundMatches_matchday tid as_ uo fp r mm hmm]
    exact h

/-! ### The unique meeting round of two labels (circle method core) -/

/-- A non-fixed label meets the fixed head label in exactly one round. -/
theorem countP_round_fixed (mlen : Nat) (hm : 1 ≤ mlen) (lb : Nat)
    (hb1 : 1 ≤ lb) (hb : lb < mlen + 1) :
    (List.range mlen).countP
      (fun r => decide (posAt mlen r 0 + posAt mlen r lb = mlen)) = 1 := by
  apply countP_range_eq_one (show mlen - lb < mlen by omega)
  · rw [decide_eq_true_eq]
    unfold posAt
    rw [if_pos rfl, if_neg (by omega)]
    have hmod : (lb - 1 + (mlen - lb)) % mlen = mlen - 1 := by
      rw [show lb - 1 + (mlen - lb) = mlen - 1 by omega]
      exact Nat.mod_eq_of_lt (by omega)
    rw [hmod]
    omega
  · intro r hr hpr
    rw [decide_eq_true_eq] at hpr
    unfold posAt at hpr
    rw [if_pos rfl, if_neg (by omega)] at hpr
    have h1 : (lb - 1 + r) % mlen = mlen - 1 := by omega
    have h2 : (lb - 1 + (mlen - lb)) % mlen = mlen - 1 := by
      rw [show lb - 1 + (mlen - lb) = mlen - 1 by omega]
      exact Nat.mod_eq_of_lt (by omega)
    have h3 : (lb - 1 + r) % mlen = (lb - 1 + (mlen - lb)) % mlen := by omega
    have h4 : r % mlen = (mlen - lb) % mlen :=
      Nat.ModEq.add_left_cancel' (lb - 1) h3
    rw [Nat.mod_eq_of_lt hr, Nat.mod_eq_of_lt (by omega)] at h4
    exact h4

/-- Two distinct non-fixed labels meet in exactly one round: the congruence
`2·r ≡ -(la + lb) (mod mlen)` has a unique solution because `mlen` is odd. -/
theorem countP_round_pair (mlen : Nat) (hodd : mlen % 2 = 1) (la lb : Nat)
    (ha1 : 1 ≤ la) (ha : la < mlen + 1) (hb1 : 1 ≤ lb) (hb : lb < mlen + 1)
    (hne : la ≠ lb) :
    (List.range mlen).countP
      (fun r => decide (posAt mlen r la + posAt mlen r lb = mlen)) = 1 := by
  have hm3 : 3 ≤ mlen := by omega
  set s := (la - 1) + (lb - 1) with hs
  have hcond : ∀ r, (posAt mlen r la + posAt mlen r lb = mlen)
      ↔ (s + 2 * r) % mlen = mlen - 2 := by
    intro r
    unfold posAt
    rw [if_neg (by omega), if_neg (by omega)]
    set A := (la - 1 + r) % mlen with hA
    set B := (lb - 1 + r) % mlen with hB
    have hAlt : A < mlen := Nat.mod_lt _ (by omega)
    have hBlt : B < mlen := Nat.mod_lt _ (by omega)
    have hAB : A ≠ B := by
      intro h
      have h5 : (la - 1) % mlen = (lb - 1) % mlen :=
        Nat.ModEq.add_right_cancel' r (show (la - 1 + r) % mlen = (lb - 1 + r) % mlen by rw [← hA, ← hB]; exact h)
      rw [Nat.mod_eq_of_lt (by omega), Nat.mod_eq_of_lt (by omega)] at h5
      omega
    have hsum : (A + B) % mlen = (s + 2 * r) % mlen := by
      rw [hA, hB, ← Nat.add_mod, show la - 1 + r + (lb - 1 + r) = s + 2 * r by omega]
    constructor
    · intro h
      have h2 : A + B = mlen - 2 := by omega
      rw [← hsum, h2]
      exact Nat.mod_eq_of_lt (by omega)
    · intro h
      have h2 : (A + B) % mlen = mlen - 2 := by rw [hsum]; exact h
      rcases Nat.lt_or_ge (A + B) mlen with hc | hc
      · rw [Nat.mod_eq_of_lt hc] at h2
        omega
      · have h3 : (A + B - mlen) % mlen = mlen - 2 := by
          rw [← Nat.mod_eq_sub_mod hc]; exact h2
        rw [Nat.mod_eq_of_lt (by omega)] at h3
        exact absurd (show A = B by omega) hAB
  have hsle : s ≤ 2 * mlen - 2 := by omega
  set t0 := (3 * mlen - 2 - s) % mlen with ht0
  set r0 := (t0 * ((mlen + 1) / 2)) % mlen with hr0
  have hr0lt : r0 < mlen := Nat.mod_lt _ (by omega)
  have hkey : (s + 2 * r0) % mlen = mlen - 2 := by
    have e1 : r0 ≡ t0 * ((mlen + 1) / 2) [MOD mlen] := Nat.mod_modEq _ _
    have e2 : 2 * r0 ≡ 2 * (t0 * ((mlen + 1) / 2)) [MOD mlen] := e1.mul_left 2
    have e3 : 2 * (t0 * ((mlen + 1) / 2)) = t0 * (mlen + 1) := by
      have h2 : 2 * ((mlen + 1) / 2) = mlen + 1 := by omega
      calc 2 * (t0 * ((mlen + 1) / 2)) = t0 * (2 * ((mlen + 1) / 2)) := by ring
        _ = t0 * (mlen + 1) := by rw [h2]
    have e4 : t0 * (mlen + 1) ≡ t0 * 1 [MOD mlen] :=
      Nat.ModEq.mul_left t0 (by
        show (mlen + 1) % mlen = 1 % mlen
        exact Nat.add_mod_left mlen 1)
    have e5 : t0 ≡ 3 * mlen - 2 - s [MOD mlen] := Nat.mod_modEq _ _
    have e6 : s + 2 * r0 ≡ s + (3 * mlen - 2 - s) [MOD mlen] := by
      refine Nat.ModEq.add_left s ?_
      calc 2 * r0 ≡ t0 * (mlen + 1) [MOD mlen] := by rw [← e3]; exact e2
        _ ≡ t0 * 1 [MOD mlen] := e4
        _ = t0 := by ring
        _ ≡ 3 * mlen - 2 - s [MOD mlen] := e5
    have e7 : s + (3 * mlen - 2 - s) = 3 * mlen - 2 := by omega
    rw [e7] at e6
    have e8 : (3 * mlen - 2) % mlen = mlen - 2 := by
      rw [show 3 * mlen - 2 = (mlen - 2) + mlen * 2 by omega]
      rw [Nat.add_mul_mod_self_left]
      exact Nat.mod_eq_of_lt (by omega)
    unfold Nat.ModEq at e6
    rw [e8] at e6
    exact e6
  apply countP_range_eq_one hr0lt
  · rw [decide_eq_true_eq, hcond]
    exact hkey
  · intro r hr hpr
    rw [decide_eq_true_eq, hcond] at hpr
    have h1 : (s + 2 * r) % mlen = (s + 2 * r0) % mlen := by rw [hpr, hkey]
    have h2 : (2 * r) % mlen = (2 * r0) % mlen :=
      Nat.ModEq.add_left_cancel' s h1
    have hcop : Nat.gcd mlen 2 = 1 :=
      Nat.coprime_two_right.mpr (Nat.odd_iff.mpr hodd)
    have h3 : r ≡ r0 [MOD mlen] :=
      Nat.ModEq.cancel_left_of_coprime hcop h2
    unfold Nat.ModEq at h3
    rw [Nat.mod_eq_of_lt hr, Nat.mod_eq_of_lt hr0lt] at h3
    exact h3

/-- Any two distinct labels meet in exactly one round. -/
theorem posAt_sum_unique_round (mlen : Nat) (hodd : mlen % 2 = 1)
    (la lb : Nat) (ha : la < mlen + 1) (hb : lb < mlen + 1) (hne : la ≠ lb) :
    (List.range mlen).countP
      (fun r => decide (posAt mlen r la + posAt mlen r lb = mlen)) = 1 := by
  have hm : 1 ≤ mlen := by omega
  by_cases h0a : la = 0
  · subst h0a
    exact countP_round_fixed mlen hm lb (by omega) hb
  · by_cases h0b : lb = 0
    · subst h0b
      have hsymm : ∀ r ∈ List.range mlen,
          (decide (posAt mlen r la + posAt mlen r 0 = mlen) = true)
            ↔ (decide (posAt mlen r 0 + posAt mlen r la = mlen) = true) := by
        intro r _
        rw [decide_eq_true_eq, decide_eq_true_eq, Nat.add_comm]
      rw [List.countP_congr hsymm]
      exact countP_round_fixed mlen hm la (by omega) ha
    · exact countP_round_pair mlen hodd la lb (by omega) ha (by omega) hb hne

/-! ### First-leg aggregates -/

/-- Unfolding `generateFixturesAlgorithm` into its two legs. -/
theorem generateFixtures_eq (tid : String) (ps : List String)
    (as_ : List Assignment) (uo : Bool) (fp : List String)
    (hfp : fp = if ps.length % 2 != 0 then ps ++ ["GHOST"] else ps) :
    generateFixturesAlgorithm tid ps as_ uo
      = (List.range (fp.length - 1)).flatMap (roundMatches tid as_ uo fp)
        ++ ((List.range (fp.length - 1)).flatMap (roundMatches tid as_ uo fp)).map
            (secondHalfMatch (fp.length - 1)) := by
  subst hfp
  rfl

/-- Summing the indicator of `r + 1 = d` over the first `k` rounds. -/
theorem sum_range_ite_day (k c d : Nat) :
    ((List.range k).map (fun r => if r + 1 = d then c else 0)).sum
      = if 1 ≤ d ∧ d ≤ k then c else 0 := by
  induction k with
  | zero =>
    rw [List.range_zero, List.map_nil, List.sum_nil, if_neg (by omega)]
  | succ n ih =>
    rw [List.range_succ, List.map_append, List.sum_append, ih]
    simp only [List.map_cons, List.map_nil, List.sum_cons, List.sum_nil]
    by_cases h1 : n + 1 = d
    · rw [if_pos h1, if_neg (by omega), if_pos (by omega)]
      omega
    · by_cases h2 : 1 ≤ d ∧ d ≤ n
      · rw [if_neg h1, if_pos h2, if_pos (by omega)]
        omega
      · rw [if_neg h1, if_neg h2, if_neg (by omega)]
        omega

/-- A sum of propositional indicators is a scaled count. -/
theorem sum_map_ite_prop_eq_countP {α : Type} (P : α → Prop) [DecidablePred P]
    (c : Nat) :
    ∀ l : List α,
      (l.map (fun a => if P a then c else 0)).sum = c * l.countP (fun a => decide (P a))
  | [] => by simp
  | hd :: tl => by
    rw [List.map_cons, List.sum_cons, List.countP_cons,
      sum_map_ite_prop_eq_countP P c tl]
    by_cases h : P hd
    · simp only [if_pos h, decide_eq_true_eq]
      rw [Nat.mul_add, Nat.mul_one]
      omega
    · simp only [if_neg h, decide_eq_true_eq]
      rw [Nat.mul_add, Nat.mul_zero]
      omega

/-- Every first-leg match of the `k`-round schedule has matchday in `1..k`. -/
theorem firstHalf_matchday_mem (tid : String) (as_ : List Assignment)
    (uo : Bool) (fp : List String) (k : Nat) :
    ∀ mm ∈ (List.range k).flatMap (roundMatches tid as_ uo fp),
      1 ≤ mm.matchday ∧ mm.matchday ≤ k := by
  intro mm hmm
  rw [List.mem_flatMap] at hmm
  obtain ⟨r, hr, hmm⟩ := hmm
  rw [List.mem_range] at hr
  rw [roundMatches_matchday tid as_ uo fp r mm hmm]
  omega

/-- Matchday census of the first leg when every round emits `L` matches. -/
theorem firstHalf_countP_matchday (tid : String) (as_ : List Assignment)
    (uo : Bool) (fp : List String) (k L : Nat)
    (hlen : ∀ r, r < k → (roundMatches tid as_ uo fp r).length = L) (d : Nat) :
    ((List.range k).flatMap (roundMatches tid as_ uo fp)).countP
        (fun mm => decide (mm.matchday = d))
      = if 1 ≤ d ∧ d ≤ k then L else 0 := by
  have hmap : (List.range k).map
      (fun r => (roundMatches tid as_ uo fp r).countP
        (fun mm => decide (mm.matchday = d)))
      = (List.range k).map (fun r => if r + 1 = d then L else 0) := by
    apply List.map_congr_left
    intro r hr
    rw [List.mem_range] at hr
    dsimp only
    rw [roundMatches_countP_matchday, hlen r hr]
  rw [countP_flatMap_eq, hmap]
  exact sum_range_ite_day k L d

/-- Length of the first leg when every round emits `L` matches. -/
theorem firstHalf_length_eq (tid : String) (as_ : List Assignment)
    (uo : Bool) (fp : List String) (k L : Nat)
    (hlen : ∀ r, r < k → (roundMatches tid as_ uo fp r).length = L) :
    ((List.range k).flatMap (roundMatches tid as_ uo fp)).length = k * L := by
  have hmap : (List.range k).map (fun r => (roundMatches tid as_ uo fp r).length)
      = (List.range k).map (fun _ => L) := by
    apply List.map_congr_left
    intro r hr
    rw [List.mem_range] at hr
    dsimp only
    exact hlen r hr
  rw [length_flatMap_eq, hmap, sum_map_const, List.length_range, Nat.mul_comm]

/-- Across the whole first leg, two distinct non-GHOST roster entries are
paired (in one order or the other) exactly once. -/
theorem firstHalf_between_one (tid : String) (as_ : List Assignment)
    (uo : Bool) (a : String) (t : List String)
    (heven : (t.length + 1) % 2 = 0) (hnd : (a :: t).Nodup)
    (x y : String) (la lb : Nat)
    (hla : la < t.length + 1) (hlb : lb < t.length + 1)
    (hx : (a :: t).getD la "" = x) (hy : (a :: t).getD lb "" = y)
    (hne : x ≠ y) (hgx : x ≠ "GHOST") (hgy : y ≠ "GHOST") :
    ((List.range t.length).flatMap (roundMatches tid as_ uo (a :: t))).countP
        (fun mm => decide ((mm.playerAId = x ∧ mm.playerBId = y) ∨
                           (mm.playerAId = y ∧ mm.playerBId = x))) = 1 := by
  subst hx hy
  have hlab : la ≠ lb := fun h => hne (by rw [h])
  have hmap : (List.range t.length).map
      (fun r => (roundMatches tid as_ uo (a :: t) r).countP
        (fun mm => decide
          ((mm.playerAId = (a :: t).getD la "" ∧ mm.playerBId = (a :: t).getD lb "") ∨
           (mm.playerAId = (a :: t).getD lb "" ∧ mm.playerBId = (a :: t).getD la ""))))
      = (List.range t.length).map
        (fun r => if posAt t.length r la + posAt t.length r lb = t.length then 1 else 0) := by
    apply List.map_congr_left
    intro r hr
    dsimp only
    exact roundMatches_countP_between tid as_ uo a t r heven hnd la lb hla hlb hlab hgx hgy
  rw [countP_flatMap_eq, hmap, sum_map_ite_prop_eq_countP, Nat.one_mul]
  exact posAt_sum_unique_round t.length (by omega) la lb hla hlb hlab


/-- Core properties of the two-leg schedule built over an even-sized padded
list `a :: t` whose rounds all emit `L` matches: total length, exactly-once
ordered pairing, matchday bounds, and per-matchday census. -/
theorem fixtures_core (tid : String) (as_ : List Assignment) (uo : Bool)
    (a : String) (t : List String) (L : Nat) (FH full : List Match)
    (heven : (t.length + 1) % 2 = 0) (hnd : (a :: t).Nodup)
    (hlen : ∀ r, r < t.length → (roundMatches tid as_ uo (a :: t) r).length = L)
    (hFH : FH = (List.range t.length).flatMap (roundMatches tid as_ uo (a :: t)))
    (hfull : full = FH ++ FH.map (secondHalfMatch t.length)) :
    full.length = 2 * (t.length * L) ∧
    (∀ x ∈ a :: t, ∀ y ∈ a :: t, x ≠ y → x ≠ "GHOST" → y ≠ "GHOST" →
      full.countP (fun mm => decide (mm.playerAId = x ∧ mm.playerBId = y)) = 1) ∧
    (∀ mm ∈ full, 1 ≤ mm.matchday ∧ mm.matchday ≤ 2 * t.length) ∧
    (∀ d, 1 ≤ d → d ≤ 2 * t.length →
      full.countP (fun mm => decide (mm.matchday = d)) = L) := by
  subst hfull
  refine ⟨?_, ?_, ?_, ?_⟩
  · rw [List.length_append, List.length_map]
    have hfl : FH.length = t.length * L := by
      rw [hFH]
      exact firstHalf_length_eq tid as_ uo (a :: t) t.length L hlen
    omega
  · intro x hx y hy hne hgx hgy
    obtain ⟨la, hla0, hxe⟩ := List.getElem_of_mem hx
    obtain ⟨lb, hlb0, hye⟩ := List.getElem_of_mem hy
    have hla : la < t.length + 1 := by simpa using hla0
    have hlb : lb < t.length + 1 := by simpa using hlb0
    have hxd : (a :: t).getD la "" = x := by
      rw [List.getD_eq_getElem?_getD, List.getElem?_eq_getElem hla0]
      exact hxe
    have hyd : (a :: t).getD lb "" = y := by
      rw [List.getD_eq_getElem?_getD, List.getElem?_eq_getElem hlb0]
      exact hye
    rw [List.countP_append, List.countP_map]
    have hcomp : FH.countP
        ((fun mm => decide (mm.playerAId = x ∧ mm.playerBId = y)) ∘ secondHalfMatch t.length)
        = FH.countP (fun mm => decide (mm.playerAId = y ∧ mm.playerBId = x)) := by
      apply List.countP_congr
      intro mm _
      simp only [Function.comp_apply, secondHalfMatch, decide_eq_true_eq]
      exact and_comm
    have hdis : ∀ mm : Match,
        ¬((fun mm => decide (mm.playerAId = x ∧ mm.playerBId = y)) mm = true ∧
          (fun mm => decide (mm.playerAId = y ∧ mm.playerBId = x)) mm = true) := by
      intro mm hc
      rw [decide_eq_true_eq, decide_eq_true_eq] at hc
      exact hne (hc.1.1.symm.trans hc.2.1)
    have hor : FH.countP (fun mm =>
          decide (mm.playerAId = x ∧ mm.playerBId = y) ||
          decide (mm.playerAId = y ∧ mm.playerBId = x))
        = FH.countP (fun mm => decide (mm.playerAId = x ∧ mm.playerBId = y))
          + FH.countP (fun mm => decide (mm.playerAId = y ∧ mm.playerBId = x)) :=
      countP_or_disjoint _ _ hdis FH
    have hcong : FH.countP (fun mm =>
          decide (mm.playerAId = x ∧ mm.playerBId = y) ||
          decide (mm.playerAId = y ∧ mm.playerBId = x))
        = FH.countP (fun mm => decide ((mm.playerAId = x ∧ mm.playerBId = y) ∨
                                       (mm.playerAId = y ∧ mm.playerBId = x))) := by
      apply List.countP_congr
      intro mm _
      rw [Bool.or_eq_true, decide_eq_true_eq, decide_eq_true_eq, decide_eq_true_eq]
    rw [hcomp, ← hor, hcong, hFH]
    exact firstHalf_between_one tid as_ uo a t heven hnd x y la lb hla hlb hxd hyd hne hgx hgy
  · intro mm hmm
    rw [List.mem_append] at hmm
    rcases hmm with hmm | hmm
    · rw [hFH] at hmm
      have := firstHalf_matchday_mem tid as_ uo (a :: t) t.length mm hmm
      omega
    · rw [List.mem_map] at hmm
      obtain ⟨m0, hm0, rfl⟩ := hmm
      rw [hFH] at hm0
      have := firstHalf_matchday_mem tid as_ uo (a :: t) t.length m0 hm0
      simp only [secondHalfMatch]
      omega
  · intro d hd1 hd2
    rw [List.countP_append, List.countP_map]
    have hfirst : FH.countP (fun mm => decide (mm.matchday = d))
        = if 1 ≤ d ∧ d ≤ t.length then L else 0 := by
      rw [hFH]
      exact firstHalf_countP_matchday tid as_ uo (a :: t) t.length L hlen d
    have hsecond : FH.countP
        ((fun mm => decide (mm.matchday = d)) ∘ secondHalfMatch t.length)
        = if 1 ≤ d ∧ d ≤ t.length then 0 else L := by
      by_cases hc : d ≤ t.length
      · rw [if_pos ⟨hd1, hc⟩, List.countP_eq_zero]
        intro mm hmm
        rw [hFH] at hmm
        have hb := firstHalf_matchday_mem tid as_ uo (a :: t) t.length mm hmm
        simp only [Function.comp_apply, secondHalfMatch, decide_eq_true_eq]
        omega
      · rw [if_neg (fun hh => hc hh.2)]
        have hcong2 : FH.countP
            ((fun mm => decide (mm.matchday = d)) ∘ secondHalfMatch t.length)
            = FH.countP (fun mm => decide (mm.matchday = d - t.length)) := by
          apply List.countP_congr
          intro mm _
          simp only [Function.comp_apply, secondHalfMatch, decide_eq_true_eq]
          omega
        rw [hcong2, hFH,
          firstHalf_countP_matchday tid as_ uo (a :: t) t.length L hlen,
          if_pos (by omega)]
    rw [hfirst, hsecond]
    by_cases hc : 1 ≤ d ∧ d ≤ t.length
    · rw [if_pos hc, if_pos hc]
      omega
    · rw [if_neg hc, if_neg hc]
      omega

/-! ### C3 — double round-robin shape of the generated fixtures -/

/-- C3 (amended): for every roster of `N ≥ 2` distinct participants none of
whom is named `"GHOST"`, `generateFixturesAlgorithm` returns exactly
`N·(N−1)` matches; every ordered pair of distinct participants appears
exactly once as (home, away) — so every unordered pair meets exactly twice
with the sides swapped; the matchday numbers lie in `1..2·(M−1)` where `M`
is the padded even roster size (`M = N` for even `N`, `M = N+1` for odd
`N`); and every matchday in that span carries exactly `⌊N/2⌋` matches (so
there are no gaps). -/
theorem fixture_generator_spec (tid : String) (as_ : List Assignment)
    (uo : Bool) (ps : List String) (hN : 2 ≤ ps.length) (hnd : ps.Nodup)
    (hg : "GHOST" ∉ ps) :
    (generateFixturesAlgorithm tid ps as_ uo).length
        = ps.length * (ps.length - 1) ∧
    (∀ x ∈ ps, ∀ y ∈ ps, x ≠ y →
      (generateFixturesAlgorithm tid ps as_ uo).countP
          (fun mm => decide (mm.playerAId = x ∧ mm.playerBId = y)) = 1) ∧
    (∀ mm ∈ generateFixturesAlgorithm tid ps as_ uo,
      1 ≤ mm.matchday ∧ mm.matchday ≤ 2 * (ps.length + ps.length % 2 - 1)) ∧
    (∀ d, 1 ≤ d → d ≤ 2 * (ps.length + ps.length % 2 - 1) →
      (generateFixturesAlgorithm tid ps as_ uo).countP
          (fun mm => decide (mm.matchday = d)) = ps.length / 2) := by
  rcases ps with _ | ⟨p, rest⟩
  · simp at hN
  by_cases hpar : (p :: rest : List String).length % 2 = 0
  · -- even roster: no padding
    have hcond : ((p :: rest : List String).length % 2 != 0) = false := by
      rw [hpar]
      decide
    have hfpeq : (p :: rest : List String)
        = if (p :: rest : List String).length % 2 != 0
          then (p :: rest) ++ ["GHOST"] else (p :: rest) := by
      rw [hcond, if_neg Bool.false_ne_true]
    have hgen := generateFixtures_eq tid (p :: rest) as_ uo (p :: rest) hfpeq
    have hlen1 : (p :: rest : List String).length - 1 = rest.length := by simp
    rw [hlen1] at hgen
    have heven : (rest.length + 1) % 2 = 0 := by simpa using hpar
    have hlenr : ∀ r, r < rest.length →
        (roundMatches tid as_ uo (p :: rest) r).length = (rest.length + 1) / 2 :=
      fun r _ => roundMatches_length_no_ghost tid as_ uo p rest r hg
    obtain ⟨hlenF, hpairF, hdayF, hcntF⟩ :=
      fixtures_core tid as_ uo p rest ((rest.length + 1) / 2) _ _
        heven hnd hlenr rfl rfl
    have hb : (p :: rest : List String).length
        + (p :: rest : List String).length % 2 - 1 = rest.length := by
      simp only [List.length_cons] at hpar ⊢
      omega
    refine ⟨?_, ?_, ?_, ?_⟩
    · rw [hgen, hlenF]
      simp only [List.length_cons, Nat.add_sub_cancel]
      have h2 : 2 * ((rest.length + 1) / 2) = rest.length + 1 := by omega
      calc 2 * (rest.length * ((rest.length + 1) / 2))
          = rest.length * (2 * ((rest.length + 1) / 2)) := by ring
        _ = rest.length * (rest.length + 1) := by rw [h2]
        _ = (rest.length + 1) * rest.length := Nat.mul_comm _ _
    · intro x hx y hy hne2
      rw [hgen]
      exact hpairF x hx y hy hne2 (fun he => hg (he ▸ hx)) (fun he => hg (he ▸ hy))
    · intro mm hmm
      rw [hgen] at hmm
      rw [hb]
      exact hdayF mm hmm
    · intro d hd1 hd2
      rw [hb] at hd2
      rw [hgen, hcntF d hd1 hd2]
      simp
  · -- odd roster: GHOST padding
    have hpar2 : (p :: rest : List String).length % 2 = 1 := by omega
    have hcond : ((p :: rest : List String).length % 2 != 0) = true := by
      rw [hpar2]
      decide
    have hfpeq : (p :: (rest ++ ["GHOST"]) : List String)
        = if (p :: rest : List String).length % 2 != 0
          then (p :: rest) ++ ["GHOST"] else (p :: rest) := by
      rw [hcond, if_pos rfl]
      exact (List.cons_append p rest ["GHOST"]).symm
    have hgen := generateFixtures_eq tid (p :: rest) as_ uo
      (p :: (rest ++ ["GHOST"])) hfpeq
    have hlen1 : (p :: (rest ++ ["GHOST"]) : List String).length - 1
        = (rest ++ ["GHOST"] : List String).length := by simp
    rw [hlen1] at hgen
    have hpar1 : rest.length % 2 = 0 := by
      simp only [List.length_cons] at hpar
      omega
    have heven : ((rest ++ ["GHOST"] : List String).length + 1) % 2 = 0 := by
      simp only [List.length_append, List.length_singleton, List.length_nil]
      omega
    have hdisj : (p :: rest : List String).Disjoint ["GHOST"] := by
      intro z hz hz2
      rw [List.mem_singleton] at hz2
      subst hz2
      exact hg hz
    have hndfp : (p :: (rest ++ ["GHOST"]) : List String).Nodup := by
      rw [← List.cons_append]
      exact List.Nodup.append hnd (List.nodup_singleton _) hdisj
    have hlast : (p :: (rest ++ ["GHOST"]) : List String).getD
        (rest ++ ["GHOST"] : List String).length "" = "GHOST" := by
      rw [show (rest ++ ["GHOST"] : List String).length = rest.length + 1 by simp]
      rw [List.getD_cons_succ]
      rw [List.getD_eq_getElem?_getD, List.getElem?_append_right (Nat.le_refl _)]
      simp
    have hlenr : ∀ r, r < (rest ++ ["GHOST"] : List String).length →
        (roundMatches tid as_ uo (p :: (rest ++ ["GHOST"])) r).length
          = ((rest ++ ["GHOST"] : List String).length + 1) / 2 - 1 :=
      fun r _ => roundMatches_length_with_ghost tid as_ uo p (rest ++ ["GHOST"]) r
        heven hndfp hlast
    obtain ⟨hlenF, hpairF, hdayF, hcntF⟩ :=
      fixtures_core tid as_ uo p (rest ++ ["GHOST"])
        (((rest ++ ["GHOST"] : List String).length + 1) / 2 - 1) _ _
        heven hndfp hlenr rfl rfl
    have hmem : ∀ z : String, z ∈ (p :: rest : List String) →
        z ∈ (p :: (rest ++ ["GHOST"]) : List String) := by
      intro z hz
      rw [← List.cons_append]
      exact List.mem_append_left _ hz
    have hb : (p :: rest : List String).length
        + (p :: rest : List String).length % 2 - 1
        = (rest ++ ["GHOST"] : List String).length := by
      simp only [List.length_cons, List.length_append, List.length_singleton, List.length_nil]
      omega
    refine ⟨?_, ?_, ?_, ?_⟩
    · rw [hgen, hlenF]
      simp only [List.length_cons, List.length_append, List.length_singleton, List.length_nil,
        Nat.add_sub_cancel]
      have h2 : (rest.length + 1 + 1) / 2 - 1 = rest.length / 2 := by omega
      have h3 : 2 * (rest.length / 2) = rest.length := by omega
      rw [h2]
      calc 2 * ((rest.length + 1) * (rest.length / 2))
          = (rest.length + 1) * (2 * (rest.length / 2)) := by ring
        _ = (rest.length + 1) * rest.length := by rw [h3]
    · intro x hx y hy hne2
      rw [hgen]
      exact hpairF x (hmem x hx) y (hmem y hy) hne2
        (fun he => hg (he ▸ hx)) (fun he => hg (he ▸ hy))
    · intro mm hmm
      rw [hgen] at hmm
      rw [hb]
      exact hdayF mm hmm
    · intro d hd1 hd2
      rw [hb] at hd2
      rw [hgen, hcntF d hd1 hd2]
      simp only [List.length_cons, List.length_append, List.length_singleton, List.length_nil]
      omega

/-- C3 counterexample to the claimed matchday span: on the 3-player roster
`["A", "B", "C"]` the matchdays are `1..6`, exceeding the claimed bound
`2·(N−1) = 4`. -/
theorem fixture_matchday_span_ctrex :
    (generateFixturesAlgorithm "t" ["A", "B", "C"] [] true).map
        (fun mm => mm.matchday) = [1, 2, 3, 4, 5, 6] ∧
    ¬ (∀ mm ∈ generateFixturesAlgorithm "t" ["A", "B", "C"] [] true,
        mm.matchday ≤ 2 * ((["A", "B", "C"] : List String).length - 1)) := by
  constructor
  · decide
  · decide

/-- Witness for C3 on the even roster `["A", "B"]`. -/
theorem fixture_generator_spec_witness :
    (2 ≤ (["A", "B"] : List String).length ∧ (["A", "B"] : List String).Nodup ∧
      "GHOST" ∉ (["A", "B"] : List String)) ∧
    ((generateFixturesAlgorithm "t" ["A", "B"] [] true).length
        = (["A", "B"] : List String).length * ((["A", "B"] : List String).length - 1) ∧
     (∀ x ∈ (["A", "B"] : List String), ∀ y ∈ (["A", "B"] : List String), x ≠ y →
        (generateFixturesAlgorithm "t" ["A", "B"] [] true).countP
            (fun mm => decide (mm.playerAId = x ∧ mm.playerBId = y)) = 1) ∧
     (∀ mm ∈ generateFixturesAlgorithm "t" ["A", "B"] [] true,
        1 ≤ mm.matchday ∧ mm.matchday ≤ 2 * ((["A", "B"] : List String).length
          + (["A", "B"] : List String).length % 2 - 1)) ∧
     (∀ d, 1 ≤ d → d ≤ 2 * ((["A", "B"] : List String).length
          + (["A", "B"] : List String).length % 2 - 1) →
        (generateFixturesAlgorithm "t" ["A", "B"] [] true).countP
            (fun mm => decide (mm.matchday = d)) = (["A", "B"] : List String).length / 2)) :=
  ⟨⟨by decide, by decide, by decide⟩,
   fixture_generator_spec "t" [] true ["A", "B"] (by decide) (by decide) (by decide)⟩

end Eafc
